import Mathlib

/-! The concurrent crawler of `crawler-task.go`.

`Crawl` starts one goroutine `CrawlIt` per discovered url and collects their
results over the unbuffered channel `crawlChan`.  The program is embedded as a
transition system: a state holds the fields of the `Crawler`, the locals of
`Crawl` and the pool of goroutines; an `Action` says which party moves next, so
a list of actions is one scheduling.

Granularity.  A goroutine touches shared state at three places: the read of
`crawledUrls[url]` (line 61), the call of `Fetch` (line 66) and the channel
send (lines 63, 67).  Each is one step.  The depth test of line 58 reads locals
only and is merged into the first step.  On the side of `Crawl` the receive of
line 41 together with lines 42-49 is one step, and each iteration of the loop
of lines 50-53 is one step.

The map.  `crawledUrls` is a built-in Go map that `Crawl` writes at line 47
and the goroutines read at line 61, with nothing that orders the two.  When
the write and a read do not overlap, the read comes before or after the write:
these are the actions `recv` and `task` taken in either order.  When they
overlap, the Go runtime may end the whole program with
`fatal error: concurrent map read and map write`: this is the action `fault`,
enabled whenever `Crawl` can receive a successful outcome while some goroutine
stands before its read of line 61.  After a `fault` no action is enabled and
`Crawl` has not returned.

Integers.  `depth` and `runningCount` are Go `int`s.  `depth-1` is evaluated
only after an outcome has been received, hence only when `depth > 0`, and
`runningCount` never exceeds the number of goroutines created, so neither can
wrap around; both are modelled in `Int`.
-/

namespace GoCrawl

/-- The three results of `Fetcher.Fetch`; `err = none` is Go's `nil` error,
`some msg` an error with that message. -/
structure FetchResult where
  body : String
  urls : List String
  err : Option String
deriving DecidableEq, Repr

/-- The interface `Fetcher`.  An implementation may keep private state of type
`σ`, so that `Fetch` may answer differently from call to call. -/
structure Fetcher (σ : Type) where
  Fetch : σ → String → FetchResult × σ

/-- A `Fetcher` whose answer depends on the url only. -/
def detFetcher (g : String → FetchResult) : Fetcher Unit :=
  ⟨fun _ url => (g url, ())⟩

/-- The struct `urlData`. -/
structure urlData where
  url : String
  body : String
  urls : List String
  err : Option String
deriving DecidableEq, Repr

/-- The fields of `Crawler` that hold data: the keys of the map `crawledUrls`
(only `true` is ever stored, so a lookup is a membership test) and the state of
the `fetcher`.  The channel `crawlChan` is unbuffered and holds nothing. -/
structure Crawler (σ : Type) where
  crawledUrls : List String
  fetcher : σ

/-- `NewCrawler`: an empty map and the given fetcher. -/
def NewCrawler {σ : Type} (fs : σ) : Crawler σ :=
  ⟨[], fs⟩

/-- The outcome sent at line 63. -/
def skipData (url : String) : urlData :=
  ⟨url, "", [], some ("skip crawled: " ++ url)⟩

/-- The outcome sent at line 67. -/
def fetchData (url : String) (r : FetchResult) : urlData :=
  ⟨url, r.body, r.urls, r.err⟩

/-- A goroutine running `CrawlIt`. -/
inductive Task where
  /-- created by `go cr.CrawlIt(url, depth)`, body not yet begun -/
  | start (url : String) (depth : Int)
  /-- past the tests of lines 58 and 61, about to call `Fetch` -/
  | fetching (url : String)
  /-- blocked in `cr.crawlChan <- data` -/
  | sending (data : urlData)
  /-- returned at line 59 without sending -/
  | dropped
  /-- its send has been received; returned -/
  | finished
deriving DecidableEq, Repr

/-- A line printed by `Crawl`: line 45 or line 48. -/
inductive Line where
  | error (msg : String)
  | found (url body : String)
deriving DecidableEq, Repr

/-- One `CrawlIt` call run from entry to exit against a fixed `Crawler`:
the crawler afterwards, the urls passed to `Fetch`, and the value sent on
`crawlChan` if any. -/
def CrawlIt {σ : Type} (f : Fetcher σ) (cr : Crawler σ) (url : String) (depth : Int) :
    Crawler σ × List String × Option urlData :=
  if depth ≤ 0 then (cr, [], none)
  else if url ∈ cr.crawledUrls then (cr, [], some (skipData url))
  else
    let r := f.Fetch cr.fetcher url
    (⟨cr.crawledUrls, r.2⟩, [url], some (fetchData url r.1))

/-- State of one `Crawl` call together with its goroutines. -/
structure State (σ : Type) where
  /-- `cr.crawledUrls` -/
  crawledUrls : List String
  /-- state of `cr.fetcher` -/
  fetcher : σ
  /-- the local `runningCount` -/
  runningCount : Int
  /-- part of `data.urls` the loop of line 50 has still to range over -/
  pending : List String
  /-- the goroutines created so far, in order of creation -/
  pool : List Task
  /-- the urls `Fetch` was called with, in order -/
  fetched : List String
  /-- the lines printed, in order: one per received outcome -/
  out : List Line
  /-- the runtime has ended the program with
  `fatal error: concurrent map read and map write` -/
  aborted : Bool

/-- Who moves next. -/
inductive Action where
  /-- goroutine `i` runs up to its next shared access -/
  | task (i : Nat)
  /-- `Crawl` receives the value goroutine `i` is sending and runs lines 42-49 -/
  | recv (i : Nat)
  /-- `Crawl` runs one iteration of the loop of lines 50-53 -/
  | spawn
  /-- `Crawl` receives the successful outcome goroutine `i` is sending, runs
  line 42 and writes the map at line 47 while goroutine `j` reads it at line
  61; the runtime ends the program -/
  | fault (i j : Nat)
deriving DecidableEq, Repr

/-- Lines 44-49: the printed line. -/
def report (data : urlData) : Line :=
  match data.err with
  | some e => Line.error e
  | none => Line.found data.url data.body

/-- Lines 44-49: the map afterwards. -/
def mark (crawledUrls : List String) (data : urlData) : List String :=
  match data.err with
  | some _ => crawledUrls
  | none => data.url :: crawledUrls

/-- One step of the running program; `none` when the action is not enabled.
`depth` is the parameter of `Crawl`. -/
def move {σ : Type} (f : Fetcher σ) (depth : Int) (s : State σ) : Action → Option (State σ)
  | Action.task i =>
    match s.pool[i]? with
    | some (Task.start url d) =>
      if d ≤ 0 then some { s with pool := s.pool.set i Task.dropped }
      else if url ∈ s.crawledUrls then
        some { s with pool := s.pool.set i (Task.sending (skipData url)) }
      else some { s with pool := s.pool.set i (Task.fetching url) }
    | some (Task.fetching url) =>
      let r := f.Fetch s.fetcher url
      some { s with
        fetcher := r.2
        fetched := s.fetched ++ [url]
        pool := s.pool.set i (Task.sending (fetchData url r.1)) }
    | _ => none
  | Action.recv i =>
    if s.pending = [] ∧ 0 < s.runningCount then
      match s.pool[i]? with
      | some (Task.sending data) =>
        some { s with
          runningCount := s.runningCount - 1
          crawledUrls := mark s.crawledUrls data
          out := s.out ++ [report data]
          pending := data.urls
          pool := s.pool.set i Task.finished }
      | _ => none
    else none
  | Action.spawn =>
    match s.pending with
    | u :: rest =>
      some { s with
        pending := rest
        pool := s.pool ++ [Task.start u (depth - 1)]
        runningCount := s.runningCount + 1 }
    | [] => none
  | Action.fault i j =>
    if s.pending = [] ∧ 0 < s.runningCount then
      match s.pool[i]?, s.pool[j]? with
      | some (Task.sending data), some (Task.start _ d) =>
        if data.err = none ∧ 0 < d then
          some { s with
            runningCount := s.runningCount - 1
            pool := s.pool.set i Task.finished
            aborted := true }
        else none
      | _, _ => none
    else none

/-- One step of the system: a program the runtime has ended takes no step. -/
def step {σ : Type} (f : Fetcher σ) (depth : Int) (s : State σ) (a : Action) :
    Option (State σ) :=
  if s.aborted = true then none else move f depth s a

/-- A step that leaves the state alone when the action is not enabled. -/
def stepT {σ : Type} (f : Fetcher σ) (depth : Int) (s : State σ) (a : Action) : State σ :=
  (step f depth s a).getD s

/-- The state after a scheduling. -/
def exec {σ : Type} (f : Fetcher σ) (depth : Int) : List Action → State σ → State σ
  | [], s => s
  | a :: as, s => exec f depth as (stepT f depth s a)

/-- Number of actions of a scheduling that were enabled when their turn came. -/
def taken {σ : Type} (f : Fetcher σ) (depth : Int) : List Action → State σ → Nat
  | [], _ => 0
  | a :: as, s =>
    (if (step f depth s a).isSome then 1 else 0) + taken f depth as (stepT f depth s a)

/-- Lines 37-38: `Crawl` has started the first goroutine and set
`runningCount` to 1. -/
def Crawl.init {σ : Type} (cr : Crawler σ) (url : String) (depth : Int) : State σ :=
  { crawledUrls := cr.crawledUrls
    fetcher := cr.fetcher
    runningCount := 1
    pending := []
    pool := [Task.start url depth]
    fetched := []
    out := []
    aborted := false }

/-- The program has not been ended, `Crawl` is at the head of the loop of line
39 and the test `runningCount > 0` fails: it returns. -/
def returned {σ : Type} (s : State σ) : Prop :=
  s.aborted = false ∧ s.pending = [] ∧ ¬ 0 < s.runningCount

instance {σ : Type} (s : State σ) : Decidable (returned s) := by
  unfold returned; infer_instance

/-- The `Crawler` a returned `Crawl` leaves behind. -/
def crawlerAfter {σ : Type} (s : State σ) : Crawler σ :=
  ⟨s.crawledUrls, s.fetcher⟩

/-- Goroutines created whose outcome has not been received by `Crawl`. -/
def unprocessed (pool : List Task) : Nat :=
  pool.countP (fun t => decide (t ≠ Task.finished))

/-- The map `fakeFetcher` with `Fetch` of lines 105-110. -/
def fakeFetch (m : List (String × String × List String)) (url : String) : FetchResult :=
  match m.lookup url with
  | some res => ⟨res.1, res.2, none⟩
  | none => ⟨"", [], some ("not found: " ++ url)⟩

/-- The variable `fetcher` of lines 113-144. -/
def fetcher : String → FetchResult :=
  fakeFetch
    [("http://golang.org/", "The Go Programming Language",
        ["http://golang.org/pkg/", "http://golang.org/cmd/"]),
     ("http://golang.org/pkg/", "Packages",
        ["http://golang.org/", "http://golang.org/cmd/",
         "http://golang.org/pkg/fmt/", "http://golang.org/pkg/os/"]),
     ("http://golang.org/pkg/fmt/", "Package fmt",
        ["http://golang.org/", "http://golang.org/pkg/"]),
     ("http://golang.org/pkg/os/", "Package os",
        ["http://golang.org/", "http://golang.org/pkg/"])]

/-! ## Inputs used below -/

/-- Urls within `n` links of `url`, following every link list `g` returns. -/
def reachWithin (g : String → FetchResult) : Nat → String → List String
  | 0, url => [url]
  | n + 1, url => url :: (g url).urls.flatMap (reachWithin g n)

/-- A chain of pages: A links to B, B to C, C to D. -/
def chainFetch : String → FetchResult :=
  fakeFetch [("A", "a", ["B"]), ("B", "b", ["C"]), ("C", "c", ["D"]), ("D", "d", [])]

/-- The pages of the cycle scenario: A links to B and C, B back to A, C to
nothing. -/
def cycleFetch : String → FetchResult :=
  fakeFetch [("A", "a", ["B", "C"]), ("B", "b", ["A"]), ("C", "c", [])]

/-- A fetcher that fails on A and still returns a link list with the error. -/
def errLinkFetch (url : String) : FetchResult :=
  if url = "A" then ⟨"", ["B"], some "boom"⟩ else ⟨"", [], none⟩

/-- A scheduling of `main`'s crawl: both goroutines of the first page run,
then the one for `pkg/` is received first. -/
def schedMain : List Action :=
  [Action.task 0, Action.task 0, Action.recv 0, Action.spawn, Action.spawn,
   Action.task 1, Action.task 1, Action.task 2, Action.task 2, Action.recv 2, Action.recv 1,
   Action.spawn, Action.spawn, Action.spawn, Action.spawn, Action.task 4, Action.task 4]

/-- A scheduling of the chain in which every goroutine runs as soon as it is
created. -/
def schedChain : List Action :=
  [Action.task 0, Action.task 0, Action.recv 0, Action.spawn,
   Action.task 1, Action.task 1, Action.recv 1, Action.spawn,
   Action.task 2, Action.task 2, Action.recv 2, Action.spawn,
   Action.task 3, Action.task 3, Action.recv 3]

/-- A scheduling of the cycle scenario in which `Crawl` writes the map for B
while the goroutine for C reads it. -/
def schedFault : List Action :=
  [Action.task 0, Action.task 0, Action.recv 0, Action.spawn, Action.spawn,
   Action.task 1, Action.task 1, Action.fault 1 2]

/-- Whether an action is a `fault`. -/
def Action.isFault : Action → Bool
  | Action.fault _ _ => true
  | _ => false

/-- A complete scheduling of the cycle scenario. -/
def schedCycle : List Action :=
  [Action.task 0, Action.task 0, Action.recv 0, Action.spawn, Action.spawn,
   Action.task 1, Action.task 1, Action.task 2, Action.task 2, Action.recv 1, Action.spawn,
   Action.task 3, Action.recv 3, Action.recv 2]

/-- A scheduling for `errLinkFetch`: the failed outcome of A is received and
the loop of line 50 runs once. -/
def schedErrLink : List Action :=
  [Action.task 0, Action.task 0, Action.recv 0, Action.spawn, Action.task 1, Action.task 1]

/-! ## Predicates on states -/

/-- Every value being sent is the skip outcome of a marked url or the result
of a fetch that has been made. -/
def sendOK (g : String → FetchResult) (s : State Unit) : Prop :=
  ∀ data, Task.sending data ∈ s.pool →
    (data = skipData data.url ∧ data.url ∈ s.crawledUrls) ∨
    (data = fetchData data.url (g data.url) ∧ data.url ∈ s.fetched)

/-- Goroutine `t` stands for url `v`: it is still to run for `v`, is sending an
outcome for `v`, or has returned at line 59 (such a goroutine is counted by
`runningCount` for ever, so it stands for any url). -/
def covers (v : String) : Task → Prop
  | Task.start u _ => u = v
  | Task.fetching u => u = v
  | Task.sending data => data.url = v
  | Task.dropped => True
  | Task.finished => False

/-- Url `v` is marked or will still be dealt with. -/
def handled {σ : Type} (s : State σ) (v : String) : Prop :=
  v ∈ s.crawledUrls ∨ v ∈ s.pending ∨ ∃ t ∈ s.pool, covers v t

/-- The urls `u`, then `path` in order, form a chain of links on which every
fetch succeeds. -/
def succPath (g : String → FetchResult) : String → List String → Bool
  | u, [] => decide ((g u).err = none)
  | u, v :: rest => decide ((g u).err = none) && decide (v ∈ (g u).urls) && succPath g v rest

/-- Url `u` is reachable from `seed` within `depth` links along a chain on
which every fetch succeeds. -/
def succReach (g : String → FetchResult) (seed : String) (depth : Int) (u : String) : Prop :=
  ∃ path : List String, succPath g seed path = true ∧ (path.length : Int) ≤ depth ∧
    (seed :: path).getLast? = some u

/-- What `Crawl` has achieved so far on pages `g`: every marked url was fetched
with success and printed as found, every successful link of a marked url is
handled, and so is the seed. -/
def progress (g : String → FetchResult) (seed : String) (s : State Unit) : Prop :=
  (∀ u ∈ s.crawledUrls,
    (g u).err = none ∧ u ∈ s.fetched ∧ Line.found u (g u).body ∈ s.out) ∧
  (∀ u ∈ s.crawledUrls, ∀ v ∈ (g u).urls, (g v).err = none → handled s v) ∧
  ((g seed).err = none → handled s seed)

/-! ## A measure for termination -/

/-- Longest link list among the pages of `S`. -/
def linkBound (g : String → FetchResult) (S : Finset String) : Nat :=
  S.sup (fun u => (g u).urls.length)

/-- Weight of a url the loop of line 50 has still to range over, when `k`
pages of `S` are unmarked. -/
def spawnWeight (L : Nat) : Nat → Nat
  | 0 => 4
  | k + 1 => (L + 1) * spawnWeight L k + 4

/-- Weight of a successful outcome being sent, when `k` pages of `S` other than
its own are unmarked. -/
def sendWeight (L k : Nat) : Nat :=
  (L + 1) * spawnWeight L k + 1

/-- Number of pages of `S` that are unmarked, not counting `u`. -/
def level (S : Finset String) (c : List String) (u : String) : Nat :=
  ((S.filter (fun x => x ∉ c)).erase u).card

/-- Weight of a goroutine: a bound on the steps it and its descendants can
still cause. -/
def taskWeight (S : Finset String) (L : Nat) (c : List String) : Task → Nat
  | Task.start u _ => if u ∈ S ∧ u ∉ c then sendWeight L (level S c u) + 2 else 3
  | Task.fetching u => if u ∈ S then sendWeight L (level S c u) + 1 else 2
  | Task.sending data => if data.err = none then sendWeight L (level S c data.url) else 1
  | Task.dropped => 0
  | Task.finished => 0

/-- Weight of a state: a bound on the steps that can still be taken. -/
def weight (S : Finset String) (L : Nat) (s : State Unit) : Nat :=
  (s.pool.map (taskWeight S L s.crawledUrls)).sum +
    s.pending.length * spawnWeight L (S.filter (fun x => x ∉ s.crawledUrls)).card

/-- No goroutine was started with a depth that makes it return at line 59. -/
def allSend {σ : Type} (s : State σ) : Prop :=
  ∀ t ∈ s.pool, t ≠ Task.dropped ∧ ∀ u d, t = Task.start u d → 0 < d

/-! ## Exhaustive search over schedulings -/

/-- Every action that can be enabled in `s`. -/
def candidates {σ : Type} (s : State σ) : List Action :=
  (List.range s.pool.length).flatMap (fun i =>
      Action.task i :: Action.recv i ::
        (List.range s.pool.length).map (fun j => Action.fault i j)) ++
    [Action.spawn]

/-- Search of all schedulings from `s` to depth `n`: `P` holds in every state
met and no scheduling takes `n` steps or more. -/
def explore {σ : Type} (f : Fetcher σ) (depth : Int) (P : State σ → Bool) :
    Nat → State σ → Bool
  | 0, _ => false
  | n + 1, s =>
    P s && (candidates s).all (fun a =>
      match step f depth s a with
      | none => true
      | some s' => explore f depth P n s')

/-- The cycle scenario: no url is fetched twice, and once `Crawl` has returned
each of A, B, C has been fetched once and four lines have been printed. -/
def cycleOK (s : State Unit) : Bool :=
  decide (s.fetched.count "A" ≤ 1 ∧ s.fetched.count "B" ≤ 1 ∧ s.fetched.count "C" ≤ 1 ∧
    (returned s → s.fetched.count "A" = 1 ∧ s.fetched.count "B" = 1 ∧
      s.fetched.count "C" = 1 ∧ s.out.length = 4))

/-! ## Reading a step -/

theorem step_alive {σ : Type} {f : Fetcher σ} {depth : Int} {s s' : State σ} {a : Action}
    (h : step f depth s a = some s') : s.aborted = false := by
  unfold step at h
  cases hs : s.aborted with
  | false => rfl
  | true => simp [hs] at h

theorem step_eq_move {σ : Type} (f : Fetcher σ) (depth : Int) {s : State σ} (a : Action)
    (h : s.aborted = false) : step f depth s a = move f depth s a := by
  simp [step, h]

theorem step_of_aborted {σ : Type} (f : Fetcher σ) (depth : Int) {s : State σ} (a : Action)
    (h : s.aborted = true) : step f depth s a = none := by
  simp [step, h]

theorem move_task_eq {σ : Type} (f : Fetcher σ) (depth : Int) (s : State σ) (i : Nat) :
    move f depth s (Action.task i) =
      match s.pool[i]? with
      | some (Task.start url d) =>
        if d ≤ 0 then some { s with pool := s.pool.set i Task.dropped }
        else if url ∈ s.crawledUrls then
          some { s with pool := s.pool.set i (Task.sending (skipData url)) }
        else some { s with pool := s.pool.set i (Task.fetching url) }
      | some (Task.fetching url) =>
        some { s with
          fetcher := (f.Fetch s.fetcher url).2
          fetched := s.fetched ++ [url]
          pool := s.pool.set i (Task.sending (fetchData url (f.Fetch s.fetcher url).1)) }
      | _ => none := by
  rfl

theorem move_fault_eq {σ : Type} (f : Fetcher σ) (depth : Int) (s : State σ) (i j : Nat) :
    move f depth s (Action.fault i j) =
      if s.pending = [] ∧ 0 < s.runningCount then
        match s.pool[i]?, s.pool[j]? with
        | some (Task.sending data), some (Task.start _ d) =>
          if data.err = none ∧ 0 < d then
            some { s with
              runningCount := s.runningCount - 1
              pool := s.pool.set i Task.finished
              aborted := true }
          else none
        | _, _ => none
      else none := by
  rfl

/-- The seven ways a step can happen. -/
theorem step_cases {σ : Type} {f : Fetcher σ} {depth : Int} {s s' : State σ} {a : Action}
    (h : step f depth s a = some s') :
    (∃ i url d, a = Action.task i ∧ s.pool[i]? = some (Task.start url d) ∧ d ≤ 0 ∧
        s' = { s with pool := s.pool.set i Task.dropped }) ∨
    (∃ i url d, a = Action.task i ∧ s.pool[i]? = some (Task.start url d) ∧ 0 < d ∧
        url ∈ s.crawledUrls ∧
        s' = { s with pool := s.pool.set i (Task.sending (skipData url)) }) ∨
    (∃ i url d, a = Action.task i ∧ s.pool[i]? = some (Task.start url d) ∧ 0 < d ∧
        url ∉ s.crawledUrls ∧
        s' = { s with pool := s.pool.set i (Task.fetching url) }) ∨
    (∃ i url, a = Action.task i ∧ s.pool[i]? = some (Task.fetching url) ∧
        s' = { s with
          fetcher := (f.Fetch s.fetcher url).2
          fetched := s.fetched ++ [url]
          pool := s.pool.set i (Task.sending (fetchData url (f.Fetch s.fetcher url).1)) }) ∨
    (∃ i data, a = Action.recv i ∧ s.pool[i]? = some (Task.sending data) ∧
        s.pending = [] ∧ 0 < s.runningCount ∧
        s' = { s with
          runningCount := s.runningCount - 1
          crawledUrls := mark s.crawledUrls data
          out := s.out ++ [report data]
          pending := data.urls
          pool := s.pool.set i Task.finished }) ∨
    (∃ u rest, a = Action.spawn ∧ s.pending = u :: rest ∧
        s' = { s with
          pending := rest
          pool := s.pool ++ [Task.start u (depth - 1)]
          runningCount := s.runningCount + 1 }) ∨
    (∃ i j data u d, a = Action.fault i j ∧ s.pool[i]? = some (Task.sending data) ∧
        s.pool[j]? = some (Task.start u d) ∧ s.pending = [] ∧ 0 < s.runningCount ∧
        s' = { s with
          runningCount := s.runningCount - 1
          pool := s.pool.set i Task.finished
          aborted := true }) := by
  rw [step_eq_move f depth a (step_alive h)] at h
  cases a with
  | task i =>
    rw [move_task_eq] at h
    cases hp : s.pool[i]? with
    | none => simp [hp] at h
    | some t =>
      cases t with
      | start url d =>
        simp only [hp] at h
        by_cases hd : d ≤ 0
        · left
          simp only [hd, if_true, Option.some.injEq] at h
          exact ⟨i, url, d, rfl, hp, hd, h.symm⟩
        · simp only [hd, if_false] at h
          by_cases hc : url ∈ s.crawledUrls
          · right; left
            simp only [hc, if_true, Option.some.injEq] at h
            exact ⟨i, url, d, rfl, hp, by omega, hc, h.symm⟩
          · right; right; left
            simp only [hc, if_false, Option.some.injEq] at h
            exact ⟨i, url, d, rfl, hp, by omega, hc, h.symm⟩
      | fetching url =>
        simp only [hp, Option.some.injEq] at h
        right; right; right; left
        exact ⟨i, url, rfl, hp, h.symm⟩
      | sending data => simp [hp] at h
      | dropped => simp [hp] at h
      | finished => simp [hp] at h
  | recv i =>
    unfold move at h
    by_cases hg : s.pending = [] ∧ 0 < s.runningCount
    · simp only [hg, and_self, if_true] at h
      cases hp : s.pool[i]? with
      | none => simp [hp] at h
      | some t =>
        cases t with
        | sending data =>
          simp only [hp, Option.some.injEq] at h
          right; right; right; right; left
          exact ⟨i, data, rfl, hp, hg.1, hg.2, h.symm⟩
        | start url d => simp [hp] at h
        | fetching url => simp [hp] at h
        | dropped => simp [hp] at h
        | finished => simp [hp] at h
    · simp only [hg, if_false] at h
      cases h
  | spawn =>
    unfold move at h
    cases hp : s.pending with
    | nil => simp [hp] at h
    | cons u rest =>
      simp only [hp, Option.some.injEq] at h
      right; right; right; right; right; left
      exact ⟨u, rest, rfl, rfl, h.symm⟩
  | fault i j =>
    rw [move_fault_eq] at h
    by_cases hg : s.pending = [] ∧ 0 < s.runningCount
    · rw [if_pos hg] at h
      cases hp : s.pool[i]? with
      | none => simp [hp] at h
      | some t =>
        cases hq : s.pool[j]? with
        | none => simp [hp, hq] at h
        | some t' =>
          cases t with
          | sending data =>
            cases t' with
            | start u d =>
              simp only [hp, hq] at h
              by_cases hc : data.err = none ∧ 0 < d
              · rw [if_pos hc] at h
                simp only [Option.some.injEq] at h
                right; right; right; right; right; right
                exact ⟨i, j, data, u, d, rfl, hp, hq, hg.1, hg.2, h.symm⟩
              · rw [if_neg hc] at h
                cases h
            | fetching url => simp [hp, hq] at h
            | sending dt => simp [hp, hq] at h
            | dropped => simp [hp, hq] at h
            | finished => simp [hp, hq] at h
          | start url d => simp [hp, hq] at h
          | fetching url => simp [hp, hq] at h
          | dropped => simp [hp, hq] at h
          | finished => simp [hp, hq] at h
    · simp only [hg, if_false] at h
      cases h

/-- A property that holds at the start and survives every step holds after
every scheduling. -/
theorem exec_induct {σ : Type} (f : Fetcher σ) (depth : Int) (I : State σ → Prop)
    (hstep : ∀ s a s', I s → step f depth s a = some s' → I s') :
    ∀ (acts : List Action) (s : State σ), I s → I (exec f depth acts s) := by
  intro acts
  induction acts with
  | nil => intro s hs; exact hs
  | cons a as ih =>
    intro s hs
    apply ih
    unfold stepT
    cases hq : step f depth s a with
    | none => simpa using hs
    | some s' => simpa using hstep s a s' hs hq

/-! ## The pool -/

theorem countP_set_add (p : Task → Bool) :
    ∀ (l : List Task) (i : Nat) (t t' : Task), l[i]? = some t →
      (l.set i t').countP p + (if p t then 1 else 0) =
        l.countP p + (if p t' then 1 else 0) := by
  intro l
  induction l with
  | nil => intro i t t' h; simp at h
  | cons x xs ih =>
    intro i t t' h
    cases i with
    | zero =>
      simp only [List.getElem?_cons_zero, Option.some.injEq] at h
      subst h
      simp only [List.set_cons_zero, List.countP_cons]
      omega
    | succ j =>
      simp only [List.getElem?_cons_succ] at h
      have := ih j t t' h
      simp only [List.set_cons_succ, List.countP_cons]
      omega

theorem unprocessed_set {l : List Task} {i : Nat} {t : Task} (t' : Task)
    (h : l[i]? = some t) (ht : t ≠ Task.finished) (ht' : t' ≠ Task.finished) :
    unprocessed (l.set i t') = unprocessed l := by
  have := countP_set_add (fun t => decide (t ≠ Task.finished)) l i t t' h
  simp only [ht, ht', ne_eq, not_false_eq_true, decide_True, if_true] at this
  unfold unprocessed
  simpa using this

theorem unprocessed_set_finished {l : List Task} {i : Nat} {t : Task}
    (h : l[i]? = some t) (ht : t ≠ Task.finished) :
    unprocessed (l.set i Task.finished) + 1 = unprocessed l := by
  have := countP_set_add (fun t => decide (t ≠ Task.finished)) l i t Task.finished h
  simp only [ht, ne_eq, not_false_eq_true, decide_True, if_true, not_true_eq_false,
    decide_False] at this
  unfold unprocessed
  simpa using this

theorem unprocessed_append_start (l : List Task) (u : String) (d : Int) :
    unprocessed (l ++ [Task.start u d]) = unprocessed l + 1 := by
  unfold unprocessed
  simp [List.countP_append]

theorem unprocessed_eq_zero {l : List Task} (h : unprocessed l = 0) :
    ∀ t ∈ l, t = Task.finished := by
  intro t ht
  unfold unprocessed at h
  rw [List.countP_eq_zero] at h
  have := h t ht
  simpa using this

theorem mem_set_cases {l : List Task} {i : Nat} {t0 t : Task} (t' : Task)
    (h : l[i]? = some t0) (ht : t ∈ l) : t = t0 ∨ t ∈ l.set i t' := by
  induction l generalizing i with
  | nil => simp at ht
  | cons x xs ih =>
    cases i with
    | zero =>
      simp only [List.getElem?_cons_zero, Option.some.injEq] at h
      rcases List.mem_cons.mp ht with rfl | hx
      · exact Or.inl h
      · right; simp [hx]
    | succ j =>
      simp only [List.getElem?_cons_succ] at h
      rcases List.mem_cons.mp ht with rfl | hx
      · right; simp
      · rcases ih h hx with h1 | h1
        · exact Or.inl h1
        · right; simp [h1]

theorem mem_set_self {l : List Task} {i : Nat} {t0 : Task} (t' : Task) (h : l[i]? = some t0) :
    t' ∈ l.set i t' := by
  induction l generalizing i with
  | nil => simp at h
  | cons x xs ih =>
    cases i with
    | zero => simp
    | succ j =>
      simp only [List.getElem?_cons_succ] at h
      simp [ih h]

/-- The count kept by `Crawl` is the number of goroutines whose outcome it has
not received: preserved by every step. -/
theorem count_step {σ : Type} {f : Fetcher σ} {depth : Int} {s s' : State σ} {a : Action}
    (hI : s.runningCount = (unprocessed s.pool : Int)) (h : step f depth s a = some s') :
    s'.runningCount = (unprocessed s'.pool : Int) := by
  rcases step_cases h with ⟨i, url, d, -, hp, -, rfl⟩ | ⟨i, url, d, -, hp, -, -, rfl⟩ |
    ⟨i, url, d, -, hp, -, -, rfl⟩ | ⟨i, url, -, hp, rfl⟩ | ⟨i, data, -, hp, -, -, rfl⟩ |
    ⟨u, rest, -, -, rfl⟩ | ⟨i, j, data, u, d, -, hp, -, -, -, rfl⟩
  · simp only [unprocessed_set Task.dropped hp (by simp) (by simp)]; exact hI
  · simp only [unprocessed_set (Task.sending (skipData url)) hp (by simp) (by simp)]; exact hI
  · simp only [unprocessed_set (Task.fetching url) hp (by simp) (by simp)]; exact hI
  · simp only [unprocessed_set (Task.sending _) hp (by simp) (by simp)]; exact hI
  · have := unprocessed_set_finished hp (by simp)
    simp only
    omega
  · simp only [unprocessed_append_start]
    push_cast
    omega
  · have := unprocessed_set_finished hp (by simp)
    simp only
    omega

theorem count_exec {σ : Type} (f : Fetcher σ) (depth : Int) (acts : List Action)
    (s : State σ) (hI : s.runningCount = (unprocessed s.pool : Int)) :
    (exec f depth acts s).runningCount = (unprocessed (exec f depth acts s).pool : Int) :=
  exec_induct f depth (fun s => s.runningCount = (unprocessed s.pool : Int))
    (fun _ _ _ hs hq => count_step hs hq) acts s hI

theorem count_init {σ : Type} (cr : Crawler σ) (url : String) (depth : Int) :
    (Crawl.init cr url depth).runningCount =
      (unprocessed (Crawl.init cr url depth).pool : Int) := by
  simp [Crawl.init, unprocessed]

theorem exec_of_aborted {σ : Type} (f : Fetcher σ) (depth : Int) :
    ∀ (acts : List Action) (s : State σ), s.aborted = true → exec f depth acts s = s := by
  intro acts
  induction acts with
  | nil => intro s _; rfl
  | cons a as ih =>
    intro s hs
    have : stepT f depth s a = s := by
      simp [stepT, step_of_aborted f depth a hs]
    simp only [exec, this]
    exact ih s hs

/-- A step other than `fault` leaves the program running. -/
theorem step_stays_alive {σ : Type} {f : Fetcher σ} {depth : Int} {s s' : State σ}
    {a : Action} (h : step f depth s a = some s') (ha : a.isFault = false) :
    s'.aborted = false := by
  have hal := step_alive h
  rcases step_cases h with ⟨i, url, d, -, hp, -, rfl⟩ | ⟨i, url, d, -, hp, -, -, rfl⟩ |
    ⟨i, url, d, -, hp, -, -, rfl⟩ | ⟨i, url, -, hp, rfl⟩ | ⟨i, data, -, hp, -, -, rfl⟩ |
    ⟨u, rest, -, -, rfl⟩ | ⟨i, j, data, u, d, rfl, hp, -, -, -, rfl⟩
  · exact hal
  · exact hal
  · exact hal
  · exact hal
  · exact hal
  · exact hal
  · simp [Action.isFault] at ha

/-- When the runtime ends the program, a goroutine is still waiting to read
the map, so some outcome is outstanding. -/
theorem busy_step {σ : Type} {f : Fetcher σ} {depth : Int} {s s' : State σ} {a : Action}
    (h : step f depth s a = some s') (hab : s'.aborted = true) :
    0 < unprocessed s'.pool := by
  have hal := step_alive h
  rcases step_cases h with ⟨i, url, d, -, hp, -, rfl⟩ | ⟨i, url, d, -, hp, -, -, rfl⟩ |
    ⟨i, url, d, -, hp, -, -, rfl⟩ | ⟨i, url, -, hp, rfl⟩ | ⟨i, data, -, hp, -, -, rfl⟩ |
    ⟨u, rest, -, -, rfl⟩ | ⟨i, j, data, u, d, -, hp, hq, -, -, rfl⟩
  · rw [hal] at hab; cases hab
  · rw [hal] at hab; cases hab
  · rw [hal] at hab; cases hab
  · rw [hal] at hab; cases hab
  · rw [hal] at hab; cases hab
  · rw [hal] at hab; cases hab
  · have hm : Task.start u d ∈ s.pool.set i Task.finished := by
      rcases mem_set_cases Task.finished hp (List.getElem?_mem hq) with h1 | h1
      · cases h1
      · exact h1
    unfold unprocessed
    rw [List.countP_pos_iff]
    exact ⟨_, hm, by simp⟩

theorem busy_exec {σ : Type} (f : Fetcher σ) (depth : Int) (acts : List Action)
    (s : State σ) (hs : s.aborted = false) :
    (exec f depth acts s).aborted = true → 0 < unprocessed (exec f depth acts s).pool :=
  exec_induct f depth (fun s => s.aborted = true → 0 < unprocessed s.pool)
    (fun _ _ _ _ hq hab => busy_step hq hab) acts s (fun hab => by rw [hs] at hab; cases hab)

/-! ## Claims -/

/-- C5: after every scheduling of a `Crawl` call (any fetcher, any crawler, any
url and depth), `runningCount` equals the number of goroutines created whose
outcome has not been received, it is not negative, and `Crawl` returns exactly
when it stands at the head of its loop with `runningCount = 0`. -/
theorem outstanding_count_invariant {σ : Type} (f : Fetcher σ) (cr : Crawler σ)
    (url : String) (depth : Int) (acts : List Action) :
    (exec f depth acts (Crawl.init cr url depth)).runningCount =
        (unprocessed (exec f depth acts (Crawl.init cr url depth)).pool : Int) ∧
      0 ≤ (exec f depth acts (Crawl.init cr url depth)).runningCount ∧
      (returned (exec f depth acts (Crawl.init cr url depth)) ↔
        (exec f depth acts (Crawl.init cr url depth)).pending = [] ∧
          (exec f depth acts (Crawl.init cr url depth)).runningCount = 0) := by
  have h := count_exec f depth acts _ (count_init cr url depth)
  have hb := busy_exec f depth acts (Crawl.init cr url depth) rfl
  refine ⟨h, by omega, ?_⟩
  unfold returned
  constructor
  · rintro ⟨-, h1, h2⟩
    exact ⟨h1, by omega⟩
  · rintro ⟨h1, h2⟩
    refine ⟨?_, h1, by omega⟩
    cases hab : (exec f depth acts (Crawl.init cr url depth)).aborted with
    | false => rfl
    | true =>
      have := hb hab
      omega

theorem getElem?_singleton_some {t x : Task} {i : Nat} (h : [x][i]? = some t) :
    i = 0 ∧ t = x := by
  cases i with
  | zero => simp at h; exact ⟨rfl, h.symm⟩
  | succ j => simp at h

/-- C1: in the crawl `main` runs (`fetcher`, depth 4) there is a scheduling in
which `Fetch` is called twice with `http://golang.org/cmd/`: the fetch fails,
the url is never entered into `crawledUrls`, and the page `pkg/` links to it
again. -/
theorem main_crawl_fetches_cmd_twice :
    (exec (detFetcher fetcher) 4 schedMain
        (Crawl.init (NewCrawler ()) "http://golang.org/" 4)).fetched
      = ["http://golang.org/", "http://golang.org/pkg/", "http://golang.org/cmd/",
         "http://golang.org/cmd/"] := by
  decide

/-- C2: on the chain A, B, C, D with depth 2 there is a scheduling in which
`Fetch` is called with D although D is three links from A: every goroutine
after the first is started with `depth-1` of the depth `Crawl` was called
with. -/
theorem chain_crawl_fetches_beyond_depth :
    "D" ∉ reachWithin chainFetch 2 "A" ∧
      (exec (detFetcher chainFetch) 2 schedChain (Crawl.init (NewCrawler ()) "A" 2)).fetched
        = ["A", "B", "C", "D"] := by
  decide

/-- C3: `Crawl(url, 0)` never returns: under every scheduling, with every
fetcher, `runningCount` stays 1, nothing is fetched and nothing is printed. -/
theorem crawl_depth_zero_never_returns {σ : Type} (f : Fetcher σ) (cr : Crawler σ)
    (url : String) (acts : List Action) :
    ¬ returned (exec f 0 acts (Crawl.init cr url 0)) ∧
      (exec f 0 acts (Crawl.init cr url 0)).runningCount = 1 ∧
      (exec f 0 acts (Crawl.init cr url 0)).fetched = [] ∧
      (exec f 0 acts (Crawl.init cr url 0)).out = [] := by
  have key := exec_induct f 0
    (fun s => s.pending = [] ∧ s.runningCount = 1 ∧ s.fetched = [] ∧ s.out = [] ∧
      (s.pool = [Task.start url 0] ∨ s.pool = [Task.dropped]))
    (by
      rintro s a s' ⟨h1, h2, h3, h4, h5⟩ h
      rcases step_cases h with ⟨i, u, d, -, hp, -, rfl⟩ | ⟨i, u, d, -, hp, hd, -, rfl⟩ |
        ⟨i, u, d, -, hp, hd, -, rfl⟩ | ⟨i, u, -, hp, rfl⟩ | ⟨i, data, -, hp, -, -, rfl⟩ |
        ⟨u, rest, -, hq, rfl⟩ | ⟨i, j, data, u, d, -, hp, -, -, -, rfl⟩
      · refine ⟨h1, h2, h3, h4, Or.inr ?_⟩
        rcases h5 with h5 | h5
        · rw [h5] at hp ⊢
          obtain ⟨rfl, -⟩ := getElem?_singleton_some hp
          rfl
        · rw [h5] at hp
          have := (getElem?_singleton_some hp).2
          cases this
      · exfalso
        rcases h5 with h5 | h5 <;> rw [h5] at hp <;>
          have := (getElem?_singleton_some hp).2 <;> cases this
        omega
      · exfalso
        rcases h5 with h5 | h5 <;> rw [h5] at hp <;>
          have := (getElem?_singleton_some hp).2 <;> cases this
        omega
      · exfalso
        rcases h5 with h5 | h5 <;> rw [h5] at hp <;>
          have := (getElem?_singleton_some hp).2 <;> cases this
      · exfalso
        rcases h5 with h5 | h5 <;> rw [h5] at hp <;>
          have := (getElem?_singleton_some hp).2 <;> cases this
      · rw [h1] at hq
        cases hq
      · exfalso
        rcases h5 with h5 | h5 <;> rw [h5] at hp <;>
          have := (getElem?_singleton_some hp).2 <;> cases this)
    acts (Crawl.init cr url 0) ⟨rfl, rfl, rfl, rfl, Or.inl rfl⟩
  obtain ⟨h1, h2, h3, h4, -⟩ := key
  refine ⟨?_, h2, h3, h4⟩
  unfold returned
  rw [h2]
  simp

/-- C6: with a fetcher that returns the link list `[B]` together with an error
for A, `Crawl` prints the error, leaves A out of `crawledUrls`, and still
starts a goroutine for B, which fetches B; `runningCount` is back at 1. -/
theorem error_outcome_spawns_children :
    (exec (detFetcher errLinkFetch) 2 schedErrLink (Crawl.init (NewCrawler ()) "A" 2)).out
        = [Line.error "boom"] ∧
      (exec (detFetcher errLinkFetch) 2 schedErrLink
        (Crawl.init (NewCrawler ()) "A" 2)).crawledUrls = [] ∧
      (exec (detFetcher errLinkFetch) 2 schedErrLink (Crawl.init (NewCrawler ()) "A" 2)).pool
        = [Task.finished, Task.sending ⟨"B", "", [], none⟩] ∧
      (exec (detFetcher errLinkFetch) 2 schedErrLink (Crawl.init (NewCrawler ()) "A" 2)).fetched
        = ["A", "B"] ∧
      (exec (detFetcher errLinkFetch) 2 schedErrLink
        (Crawl.init (NewCrawler ()) "A" 2)).runningCount = 1 := by
  decide

/-- The two steps of a goroutine, run back to back, do what `CrawlIt` does. -/
theorem CrawlIt_as_steps {σ : Type} (f : Fetcher σ) (depth : Int) (s : State σ) (i : Nat)
    (url : String) (d : Int) (hal : s.aborted = false)
    (h : s.pool[i]? = some (Task.start url d)) :
    (stepT f depth (stepT f depth s (Action.task i)) (Action.task i)) =
      { s with
        fetcher := (CrawlIt f ⟨s.crawledUrls, s.fetcher⟩ url d).1.fetcher
        fetched := s.fetched ++ (CrawlIt f ⟨s.crawledUrls, s.fetcher⟩ url d).2.1
        pool := s.pool.set i
          (match (CrawlIt f ⟨s.crawledUrls, s.fetcher⟩ url d).2.2 with
            | none => Task.dropped
            | some data => Task.sending data) } := by
  have hi : i < s.pool.length := by
    rcases Nat.lt_or_ge i s.pool.length with hlt | hge
    · exact hlt
    · rw [List.getElem?_eq_none hge] at h
      cases h
  unfold CrawlIt
  by_cases hd : d ≤ 0
  · simp [stepT, step, hal, move_task_eq, h, hd, List.getElem?_set, hi]
  · by_cases hc : url ∈ s.crawledUrls
    · simp [stepT, step, hal, move_task_eq, h, hd, hc, List.getElem?_set, hi]
    · simp [stepT, step, hal, move_task_eq, h, hd, hc, List.getElem?_set, hi]

/-- C7 as stated fails: with A in `crawledUrls` the call `CrawlIt(A, 1)` sends
the skip outcome without calling `Fetch`, with A absent it calls `Fetch`. -/
theorem CrawlIt_reads_crawledUrls :
    (CrawlIt (detFetcher cycleFetch) ⟨["A"], ()⟩ "A" 1).2
        = ([], some ⟨"A", "", [], some "skip crawled: A"⟩) ∧
      (CrawlIt (detFetcher cycleFetch) ⟨[], ()⟩ "A" 1).2
        = (["A"], some ⟨"A", "a", ["B", "C"], none⟩) := by
  decide

/-- C7 amended: `CrawlIt` never writes `crawledUrls` and reads only the
entry of its own url: for two contents that agree on that entry the calls of
`Fetch`, the outcome sent and the fetcher afterwards are the same; in the
transition system no step of a goroutine and no iteration of the spawning loop
changes `crawledUrls`. -/
theorem CrawlIt_confinement {σ : Type} (f : Fetcher σ) (c₁ c₂ : List String) (fs : σ)
    (url : String) (depth : Int) (hagree : url ∈ c₁ ↔ url ∈ c₂) :
    (CrawlIt f ⟨c₁, fs⟩ url depth).2 = (CrawlIt f ⟨c₂, fs⟩ url depth).2 ∧
      (CrawlIt f ⟨c₁, fs⟩ url depth).1.fetcher = (CrawlIt f ⟨c₂, fs⟩ url depth).1.fetcher ∧
      (CrawlIt f ⟨c₁, fs⟩ url depth).1.crawledUrls = c₁ ∧
      (∀ (d : Int) (s : State σ) (i : Nat),
        (stepT f d s (Action.task i)).crawledUrls = s.crawledUrls) ∧
      (∀ (d : Int) (s : State σ), (stepT f d s Action.spawn).crawledUrls = s.crawledUrls) := by
  refine ⟨?_, ?_, ?_, ?_, ?_⟩
  · unfold CrawlIt
    by_cases hd : depth ≤ 0
    · simp [hd]
    · by_cases hc : url ∈ c₁
      · simp [hd, hc, hagree.mp hc]
      · have hc' : url ∉ c₂ := fun h => hc (hagree.mpr h)
        simp [hd, hc, hc']
  · unfold CrawlIt
    by_cases hd : depth ≤ 0
    · simp [hd]
    · by_cases hc : url ∈ c₁
      · simp [hd, hc, hagree.mp hc]
      · have hc' : url ∉ c₂ := fun h => hc (hagree.mpr h)
        simp [hd, hc, hc']
  · unfold CrawlIt
    by_cases hd : depth ≤ 0
    · simp [hd]
    · by_cases hc : url ∈ c₁
      · simp [hd, hc]
      · simp [hd, hc]
  · intro d s i
    unfold stepT
    cases hq : step f d s (Action.task i) with
    | none => rfl
    | some s' =>
      rcases step_cases hq with ⟨i, u, d, -, hp, -, rfl⟩ | ⟨i, u, d, -, hp, hd, -, rfl⟩ |
        ⟨i, u, d, -, hp, hd, -, rfl⟩ | ⟨i, u, -, hp, rfl⟩ | ⟨i, data, ha, hp, -, -, rfl⟩ |
        ⟨u, rest, ha, hq, rfl⟩ | ⟨i, j, data, u, d, ha, -, -, -, -, rfl⟩
      · rfl
      · rfl
      · rfl
      · rfl
      · cases ha
      · cases ha
      · cases ha
  · intro d s
    unfold stepT
    cases hq : step f d s Action.spawn with
    | none => rfl
    | some s' =>
      rcases step_cases hq with ⟨i, u, d, ha, hp, -, rfl⟩ | ⟨i, u, d, ha, hp, hd, -, rfl⟩ |
        ⟨i, u, d, ha, hp, hd, -, rfl⟩ | ⟨i, u, ha, hp, rfl⟩ | ⟨i, data, ha, hp, -, -, rfl⟩ |
        ⟨u, rest, ha, hq, rfl⟩ | ⟨i, j, data, u, d, ha, -, -, -, -, rfl⟩
      · cases ha
      · cases ha
      · cases ha
      · cases ha
      · cases ha
      · rfl
      · cases ha

theorem CrawlIt_confinement_witness :
    ("A" ∈ ["B"] ↔ "A" ∈ ["C", "B"]) ∧
      (CrawlIt (detFetcher cycleFetch) ⟨["B"], ()⟩ "A" 1).2
        = (CrawlIt (detFetcher cycleFetch) ⟨["C", "B"], ()⟩ "A" 1).2 :=
  ⟨by decide, (CrawlIt_confinement (detFetcher cycleFetch) ["B"] ["C", "B"] () "A" 1
    (by decide)).1⟩

/-- C9 as stated fails: after a first `Crawl(A, 2)` on the cycle pages has
returned, having fetched A, B and C, a second `Crawl(A, 2)` on the same
`Crawler` returns without fetching anything. -/
theorem second_crawl_fetches_nothing :
    returned (exec (detFetcher cycleFetch) 2 schedCycle (Crawl.init (NewCrawler ()) "A" 2)) ∧
      (exec (detFetcher cycleFetch) 2 schedCycle (Crawl.init (NewCrawler ()) "A" 2)).fetched
        = ["A", "B", "C"] ∧
      returned (exec (detFetcher cycleFetch) 2 [Action.task 0, Action.recv 0]
        (Crawl.init (crawlerAfter (exec (detFetcher cycleFetch) 2 schedCycle
          (Crawl.init (NewCrawler ()) "A" 2))) "A" 2)) ∧
      (exec (detFetcher cycleFetch) 2 [Action.task 0, Action.recv 0]
        (Crawl.init (crawlerAfter (exec (detFetcher cycleFetch) 2 schedCycle
          (Crawl.init (NewCrawler ()) "A" 2))) "A" 2)).fetched = [] := by
  decide

/-- C9 amended: `NewCrawler` creates the empty `crawledUrls`, and every
`Crawl` call starts with its own `runningCount = 1` but with the `crawledUrls`
its `Crawler` already holds.  So a `Crawl(url, depth)` with `depth > 0` on a
`Crawler` that has `url` in `crawledUrls` fetches nothing under any
scheduling, leaves `crawledUrls` as it was, and when it returns it has printed
the one line `skip crawled: url`. -/
theorem crawl_keeps_crawledUrls {σ : Type} (f : Fetcher σ) (cr : Crawler σ) (url : String)
    (depth : Int) (acts : List Action) (hm : url ∈ cr.crawledUrls) (hd : 0 < depth) :
    (NewCrawler cr.fetcher).crawledUrls = [] ∧
      (Crawl.init cr url depth).runningCount = 1 ∧
      (Crawl.init cr url depth).crawledUrls = cr.crawledUrls ∧
      (exec f depth acts (Crawl.init cr url depth)).fetched = [] ∧
      (exec f depth acts (Crawl.init cr url depth)).crawledUrls = cr.crawledUrls ∧
      (returned (exec f depth acts (Crawl.init cr url depth)) →
        (exec f depth acts (Crawl.init cr url depth)).out
          = [Line.error ("skip crawled: " ++ url)]) := by
  have key := exec_induct f depth
    (fun s => s.pending = [] ∧ s.fetched = [] ∧ s.crawledUrls = cr.crawledUrls ∧
      ((s.pool = [Task.start url depth] ∧ s.runningCount = 1 ∧ s.out = []) ∨
       (s.pool = [Task.sending (skipData url)] ∧ s.runningCount = 1 ∧ s.out = []) ∨
       (s.pool = [Task.finished] ∧ s.runningCount = 0 ∧
          s.out = [Line.error ("skip crawled: " ++ url)])))
    (by
      rintro s a s' ⟨h1, h2, h3, h4⟩ h
      rcases step_cases h with ⟨i, u, d, -, hp, hd', rfl⟩ | ⟨i, u, d, -, hp, hd', hc, rfl⟩ |
        ⟨i, u, d, -, hp, hd', hc, rfl⟩ | ⟨i, u, -, hp, rfl⟩ | ⟨i, data, -, hp, -, hr, rfl⟩ |
        ⟨u, rest, -, hq, rfl⟩ | ⟨i, j, data, u', d', -, hp, hq, -, -, rfl⟩
      · exfalso
        rcases h4 with ⟨h5, -⟩ | ⟨h5, -⟩ | ⟨h5, -⟩ <;> rw [h5] at hp <;>
          have := (getElem?_singleton_some hp).2 <;> cases this
        omega
      · refine ⟨h1, h2, h3, Or.inr (Or.inl ?_)⟩
        rcases h4 with ⟨h5, h6⟩ | ⟨h5, -⟩ | ⟨h5, -⟩
        · rw [h5] at hp ⊢
          obtain ⟨rfl, ht⟩ := getElem?_singleton_some hp
          cases ht
          exact ⟨rfl, h6⟩
        · rw [h5] at hp
          have := (getElem?_singleton_some hp).2
          cases this
        · rw [h5] at hp
          have := (getElem?_singleton_some hp).2
          cases this
      · exfalso
        rcases h4 with ⟨h5, -⟩ | ⟨h5, -⟩ | ⟨h5, -⟩ <;> rw [h5] at hp <;>
          have := (getElem?_singleton_some hp).2 <;> cases this
        rw [h3] at hc
        exact hc hm
      · exfalso
        rcases h4 with ⟨h5, -⟩ | ⟨h5, -⟩ | ⟨h5, -⟩ <;> rw [h5] at hp <;>
          have := (getElem?_singleton_some hp).2 <;> cases this
      · rcases h4 with ⟨h5, -⟩ | ⟨h5, h6, h7⟩ | ⟨h5, h6, -⟩
        · rw [h5] at hp
          have := (getElem?_singleton_some hp).2
          cases this
        · rw [h5] at hp
          obtain ⟨rfl, ht⟩ := getElem?_singleton_some hp
          cases ht
          refine ⟨rfl, h2, h3, Or.inr (Or.inr ⟨?_, ?_, ?_⟩)⟩
          · simp only [h5]; rfl
          · simp only [h6]; rfl
          · simp only [h7]; rfl
        · omega
      · rw [h1] at hq
        cases hq
      · exfalso
        rcases h4 with ⟨h5, -⟩ | ⟨h5, -⟩ | ⟨h5, -⟩
        · rw [h5] at hp
          have := (getElem?_singleton_some hp).2
          cases this
        · rw [h5] at hq
          have := (getElem?_singleton_some hq).2
          cases this
        · rw [h5] at hp
          have := (getElem?_singleton_some hp).2
          cases this)
    acts (Crawl.init cr url depth) ⟨rfl, rfl, rfl, Or.inl ⟨rfl, rfl, rfl⟩⟩
  obtain ⟨h1, h2, h3, h4⟩ := key
  refine ⟨rfl, rfl, rfl, h2, h3, ?_⟩
  intro hr
  unfold returned at hr
  rcases h4 with ⟨-, h6, -⟩ | ⟨-, h6, -⟩ | ⟨-, -, h7⟩
  · omega
  · omega
  · exact h7

theorem crawl_keeps_crawledUrls_witness :
    "A" ∈ (Crawler.mk ["A"] ()).crawledUrls ∧ (0 : Int) < 2 ∧
      (exec (detFetcher cycleFetch) 2 [Action.task 0, Action.recv 0]
        (Crawl.init (Crawler.mk ["A"] ()) "A" 2)).fetched = [] :=
  ⟨by decide, by decide,
    (crawl_keeps_crawledUrls (detFetcher cycleFetch) (Crawler.mk ["A"] ()) "A" 2
      [Action.task 0, Action.recv 0] (by decide) (by decide)).2.2.2.1⟩

/-! ## Pages that answer by url only -/

theorem mem_mark {c : List String} {u : String} (data : urlData) (h : u ∈ c) :
    u ∈ mark c data := by
  unfold mark
  cases data.err with
  | none => simp [h]
  | some e => simpa using h

theorem sendOK_step {g : String → FetchResult} {depth : Int} {s s' : State Unit} {a : Action}
    (hI : sendOK g s) (h : step (detFetcher g) depth s a = some s') : sendOK g s' := by
  intro data hm
  rcases step_cases h with ⟨i, u, d, -, hp, -, rfl⟩ | ⟨i, u, d, -, hp, -, hc, rfl⟩ |
    ⟨i, u, d, -, hp, -, -, rfl⟩ | ⟨i, u, -, hp, rfl⟩ | ⟨i, dt, -, hp, -, -, rfl⟩ |
    ⟨u, rest, -, -, rfl⟩ | ⟨i, j, dt, u, d, -, hp, -, -, -, rfl⟩
  · rcases List.mem_or_eq_of_mem_set hm with h1 | h1
    · exact hI data h1
    · cases h1
  · rcases List.mem_or_eq_of_mem_set hm with h1 | h1
    · exact hI data h1
    · cases h1
      exact Or.inl ⟨rfl, hc⟩
  · rcases List.mem_or_eq_of_mem_set hm with h1 | h1
    · exact hI data h1
    · cases h1
  · rcases List.mem_or_eq_of_mem_set hm with h1 | h1
    · rcases hI data h1 with ⟨h2, h3⟩ | ⟨h2, h3⟩
      · exact Or.inl ⟨h2, h3⟩
      · exact Or.inr ⟨h2, List.mem_append_left _ h3⟩
    · cases h1
      exact Or.inr ⟨rfl, by simp [fetchData]⟩
  · rcases List.mem_or_eq_of_mem_set hm with h1 | h1
    · rcases hI data h1 with ⟨h2, h3⟩ | ⟨h2, h3⟩
      · exact Or.inl ⟨h2, mem_mark dt h3⟩
      · exact Or.inr ⟨h2, h3⟩
    · cases h1
  · have h1 : Task.sending data ∈ s.pool := by
      simpa using hm
    exact hI data h1
  · rcases List.mem_or_eq_of_mem_set hm with h1 | h1
    · exact hI data h1
    · cases h1

theorem sendOK_init (g : String → FetchResult) (cr : Crawler Unit) (url : String)
    (depth : Int) : sendOK g (Crawl.init cr url depth) := by
  intro data hm
  simp [Crawl.init] at hm

theorem covered_set {l : List Task} {i : Nat} {t0 : Task} (t' : Task) {v : String}
    (h : l[i]? = some t0) (himp : covers v t0 → covers v t')
    (hc : ∃ t ∈ l, covers v t) : ∃ t ∈ l.set i t', covers v t := by
  obtain ⟨t, ht, hcov⟩ := hc
  rcases mem_set_cases t' h ht with h1 | h1
  · subst h1
    exact ⟨t', mem_set_self t' h, himp hcov⟩
  · exact ⟨t, h1, hcov⟩

theorem handled_step {g : String → FetchResult} {depth : Int} {s s' : State Unit} {a : Action}
    {v : String} (hok : sendOK g s) (h : step (detFetcher g) depth s a = some s')
    (hal : s'.aborted = false) (hv : (g v).err = none) (hh : handled s v) :
    handled s' v := by
  rcases step_cases h with ⟨i, u, d, -, hp, -, rfl⟩ | ⟨i, u, d, -, hp, -, hc, rfl⟩ |
    ⟨i, u, d, -, hp, -, -, rfl⟩ | ⟨i, u, -, hp, rfl⟩ | ⟨i, dt, -, hp, hpe, -, rfl⟩ |
    ⟨u, rest, -, hpe, rfl⟩ | ⟨i, j, dt, u, d, -, hp, -, -, -, rfl⟩
  · rcases hh with h1 | h1 | h1
    · exact Or.inl h1
    · exact Or.inr (Or.inl h1)
    · exact Or.inr (Or.inr (covered_set _ hp (fun _ => trivial) h1))
  · rcases hh with h1 | h1 | h1
    · exact Or.inl h1
    · exact Or.inr (Or.inl h1)
    · exact Or.inr (Or.inr (covered_set _ hp (fun hcv => hcv) h1))
  · rcases hh with h1 | h1 | h1
    · exact Or.inl h1
    · exact Or.inr (Or.inl h1)
    · exact Or.inr (Or.inr (covered_set _ hp (fun hcv => hcv) h1))
  · rcases hh with h1 | h1 | h1
    · exact Or.inl h1
    · exact Or.inr (Or.inl h1)
    · exact Or.inr (Or.inr (covered_set _ hp (fun hcv => hcv) h1))
  · rcases hh with h1 | h1 | ⟨t, ht, hcov⟩
    · exact Or.inl (mem_mark dt h1)
    · rw [hpe] at h1
      cases h1
    · rcases mem_set_cases Task.finished hp ht with h2 | h2
      · subst h2
        have hu : dt.url = v := hcov
        have hmem : Task.sending dt ∈ s.pool := List.getElem?_mem hp
        rcases hok dt hmem with ⟨-, h4⟩ | ⟨h3, -⟩
        · left
          rw [← hu]
          exact mem_mark dt h4
        · left
          have he : dt.err = none := by
            rw [h3, hu]
            exact hv
          show v ∈ mark s.crawledUrls dt
          unfold mark
          rw [he, hu]
          simp
      · exact Or.inr (Or.inr ⟨t, h2, hcov⟩)
  · rcases hh with h1 | h1 | ⟨t, ht, hcov⟩
    · exact Or.inl h1
    · rw [hpe] at h1
      rcases List.mem_cons.mp h1 with h2 | h2
      · right; right
        refine ⟨Task.start u (depth - 1), by simp, ?_⟩
        exact h2.symm
      · exact Or.inr (Or.inl h2)
    · exact Or.inr (Or.inr ⟨t, by simp [ht], hcov⟩)
  · cases hal

theorem progress_step {g : String → FetchResult} {depth : Int} {seed : String}
    {s s' : State Unit} {a : Action}
    (hok : sendOK g s) (hI : progress g seed s)
    (h : step (detFetcher g) depth s a = some s') (hal : s'.aborted = false) :
    progress g seed s' := by
  obtain ⟨ha, hb, hc⟩ := hI
  have hb' : ∀ u ∈ s.crawledUrls, ∀ v ∈ (g u).urls, (g v).err = none → handled s' v :=
    fun u hu v hv hs => handled_step hok h hal hs (hb u hu v hv hs)
  have hc' : (g seed).err = none → handled s' seed :=
    fun hs => handled_step hok h hal hs (hc hs)
  rcases step_cases h with ⟨i, u, d, -, hp, -, rfl⟩ | ⟨i, u, d, -, hp, -, -, rfl⟩ |
    ⟨i, u, d, -, hp, -, -, rfl⟩ | ⟨i, u, -, hp, rfl⟩ | ⟨i, dt, -, hp, hpe, -, rfl⟩ |
    ⟨u, rest, -, hpe, rfl⟩ | ⟨i, j, dt, u, d, -, hp, -, -, -, rfl⟩
  · exact ⟨ha, hb', hc'⟩
  · exact ⟨ha, hb', hc'⟩
  · exact ⟨ha, hb', hc'⟩
  · refine ⟨?_, hb', hc'⟩
    intro w hw
    obtain ⟨h1, h2, h3⟩ := ha w hw
    exact ⟨h1, List.mem_append_left _ h2, h3⟩
  · have hmem : Task.sending dt ∈ s.pool := List.getElem?_mem hp
    cases he : dt.err with
    | some e =>
      have hmk : mark s.crawledUrls dt = s.crawledUrls := by
        unfold mark; rw [he]
      refine ⟨?_, ?_, hc'⟩
      · intro w hw
        have hw' : w ∈ s.crawledUrls := by rw [← hmk]; exact hw
        obtain ⟨h1, h2, h3⟩ := ha w hw'
        exact ⟨h1, h2, List.mem_append_left _ h3⟩
      · intro w hw
        have hw' : w ∈ s.crawledUrls := by rw [← hmk]; exact hw
        exact hb' w hw'
    | none =>
      have hmk : mark s.crawledUrls dt = dt.url :: s.crawledUrls := by
        unfold mark; rw [he]
      have hform : dt = fetchData dt.url (g dt.url) ∧ dt.url ∈ s.fetched := by
        rcases hok dt hmem with ⟨h3, -⟩ | h3
        · rw [h3] at he
          simp [skipData] at he
        · exact h3
      have hsucc : (g dt.url).err = none := by
        have : dt.err = (g dt.url).err := by
          conv_lhs => rw [hform.1]
          rfl
        rw [← this]; exact he
      refine ⟨?_, ?_, hc'⟩
      · intro w hw
        have hw' : w = dt.url ∨ w ∈ s.crawledUrls := by
          have : w ∈ dt.url :: s.crawledUrls := by rw [← hmk]; exact hw
          exact List.mem_cons.mp this
        rcases hw' with rfl | hw'
        · refine ⟨hsucc, hform.2, ?_⟩
          have hrep : report dt = Line.found dt.url (g dt.url).body := by
            unfold report
            rw [he]
            have : dt.body = (g dt.url).body := by
              conv_lhs => rw [hform.1]
              rfl
            rw [this]
          show Line.found dt.url (g dt.url).body ∈ s.out ++ [report dt]
          rw [hrep]
          simp
        · obtain ⟨h1, h2, h3⟩ := ha w hw'
          exact ⟨h1, h2, List.mem_append_left _ h3⟩
      · intro w hw
        have hw' : w = dt.url ∨ w ∈ s.crawledUrls := by
          have : w ∈ dt.url :: s.crawledUrls := by rw [← hmk]; exact hw
          exact List.mem_cons.mp this
        rcases hw' with rfl | hw'
        · intro v hv _
          right; left
          have : dt.urls = (g dt.url).urls := by
            conv_lhs => rw [hform.1]
            rfl
          show v ∈ dt.urls
          rw [this]; exact hv
        · exact hb' w hw'
  · exact ⟨ha, hb', hc'⟩
  · cases hal

theorem succPath_head {g : String → FetchResult} {u : String} {path : List String}
    (h : succPath g u path = true) : (g u).err = none := by
  cases path with
  | nil => simpa [succPath] using h
  | cons v rest =>
    simp only [succPath, Bool.and_eq_true, decide_eq_true_eq] at h
    exact h.1.1

/-- Once nothing is pending and every goroutine has finished, a handled url is
a marked url. -/
theorem handled_at_rest {σ : Type} {s : State σ} {v : String} (hp : s.pending = [])
    (hfin : ∀ t ∈ s.pool, t = Task.finished) (hh : handled s v) : v ∈ s.crawledUrls := by
  rcases hh with h1 | h1 | ⟨t, ht, hcov⟩
  · exact h1
  · rw [hp] at h1
    cases h1
  · rw [hfin t ht] at hcov
    exact hcov.elim

theorem succPath_marked {g : String → FetchResult} {s : State Unit}
    (hclosed : ∀ u ∈ s.crawledUrls, ∀ v ∈ (g u).urls, (g v).err = none → v ∈ s.crawledUrls) :
    ∀ (path : List String) (u : String), u ∈ s.crawledUrls → succPath g u path = true →
      ∀ x ∈ u :: path, x ∈ s.crawledUrls := by
  intro path
  induction path with
  | nil =>
    intro u hu _ x hx
    simp only [List.mem_singleton] at hx
    rw [hx]; exact hu
  | cons v rest ih =>
    intro u hu hpath x hx
    have hv : succPath g v rest = true := by
      simp only [succPath, Bool.and_eq_true, decide_eq_true_eq] at hpath
      exact hpath.2
    have hlink : v ∈ (g u).urls := by
      simp only [succPath, Bool.and_eq_true, decide_eq_true_eq] at hpath
      exact hpath.1.2
    rcases List.mem_cons.mp hx with h1 | h1
    · rw [h1]; exact hu
    · exact ih v (hclosed u hu v hlink (succPath_head hv)) hv x h1

theorem progress_exec (g : String → FetchResult) (seed : String) (depth : Int)
    (acts : List Action) :
    (exec (detFetcher g) depth acts (Crawl.init (NewCrawler ()) seed depth)).runningCount =
        (unprocessed (exec (detFetcher g) depth acts
          (Crawl.init (NewCrawler ()) seed depth)).pool : Int) ∧
      sendOK g (exec (detFetcher g) depth acts (Crawl.init (NewCrawler ()) seed depth)) ∧
      ((exec (detFetcher g) depth acts (Crawl.init (NewCrawler ()) seed depth)).aborted = false →
        progress g seed
          (exec (detFetcher g) depth acts (Crawl.init (NewCrawler ()) seed depth))) := by
  apply exec_induct (detFetcher g) depth
    (fun s => s.runningCount = (unprocessed s.pool : Int) ∧ sendOK g s ∧
      (s.aborted = false → progress g seed s))
  · rintro s a s' ⟨h1, h2, h3⟩ h
    exact ⟨count_step h1 h, sendOK_step h2 h,
      fun hal => progress_step h2 (h3 (step_alive h)) h hal⟩
  · refine ⟨count_init _ _ _, sendOK_init g _ _ _, fun _ => ⟨?_, ?_, ?_⟩⟩
    · intro u hu
      simp [Crawl.init, NewCrawler] at hu
    · intro u hu
      simp [Crawl.init, NewCrawler] at hu
    · intro _
      right; right
      exact ⟨Task.start seed depth, by simp [Crawl.init], rfl⟩

/-- C4 as stated fails: on the `Crawler` a first `Crawl(A, 2)` over the cycle
pages leaves behind, a second `Crawl(A, 2)` returns although A, reachable from
itself in zero links with a successful fetch, has not been passed to `Fetch`
and has not been printed as found by it. -/
theorem used_crawler_skips_reachable_seed :
    returned (exec (detFetcher cycleFetch) 2 [Action.task 0, Action.recv 0]
        (Crawl.init (crawlerAfter (exec (detFetcher cycleFetch) 2 schedCycle
          (Crawl.init (NewCrawler ()) "A" 2))) "A" 2)) ∧
      succReach cycleFetch "A" 2 "A" ∧
      "A" ∉ (exec (detFetcher cycleFetch) 2 [Action.task 0, Action.recv 0]
        (Crawl.init (crawlerAfter (exec (detFetcher cycleFetch) 2 schedCycle
          (Crawl.init (NewCrawler ()) "A" 2))) "A" 2)).fetched ∧
      Line.found "A" (cycleFetch "A").body ∉
        (exec (detFetcher cycleFetch) 2 [Action.task 0, Action.recv 0]
          (Crawl.init (crawlerAfter (exec (detFetcher cycleFetch) 2 schedCycle
            (Crawl.init (NewCrawler ()) "A" 2))) "A" 2)).out :=
  ⟨by decide, ⟨[], by decide, by decide, by decide⟩, by decide, by decide⟩

/-- C4 amended: for pages `g` answering by url only, a seed and a depth:
whenever `Crawl(seed, depth)` on a `Crawler` fresh from `NewCrawler` (its
`crawledUrls` empty) has returned, every url reachable from the seed within
`depth` links along a chain on which every fetch succeeds has been passed to
`Fetch` and has been printed as found. -/
theorem crawl_complete (g : String → FetchResult) (seed : String) (depth : Int)
    (acts : List Action) (u : String)
    (hret : returned (exec (detFetcher g) depth acts (Crawl.init (NewCrawler ()) seed depth)))
    (hreach : succReach g seed depth u) :
    u ∈ (exec (detFetcher g) depth acts (Crawl.init (NewCrawler ()) seed depth)).fetched ∧
      Line.found u (g u).body ∈
        (exec (detFetcher g) depth acts (Crawl.init (NewCrawler ()) seed depth)).out := by
  obtain ⟨hcnt, -, hprog⟩ := progress_exec g seed depth acts
  obtain ⟨hal, hpend, hrc⟩ := hret
  obtain ⟨ha, hb, hc⟩ := hprog hal
  have hzero : unprocessed (exec (detFetcher g) depth acts
      (Crawl.init (NewCrawler ()) seed depth)).pool = 0 := by omega
  have hfin := unprocessed_eq_zero hzero
  obtain ⟨path, hpath, -, hlast⟩ := hreach
  have hseed := handled_at_rest hpend hfin (hc (succPath_head hpath))
  have hclosed := succPath_marked (g := g)
    (s := exec (detFetcher g) depth acts (Crawl.init (NewCrawler ()) seed depth))
    (fun w hw v hv hs => handled_at_rest hpend hfin (hb w hw v hv hs))
    path seed hseed hpath
  have hu := hclosed u (List.mem_of_getLast?_eq_some hlast)
  exact (ha u hu).2

theorem crawl_complete_witness :
    returned (exec (detFetcher cycleFetch) 2 schedCycle (Crawl.init (NewCrawler ()) "A" 2)) ∧
      succReach cycleFetch "A" 2 "C" ∧
      "C" ∈ (exec (detFetcher cycleFetch) 2 schedCycle
        (Crawl.init (NewCrawler ()) "A" 2)).fetched ∧
      Line.found "C" (cycleFetch "C").body ∈
        (exec (detFetcher cycleFetch) 2 schedCycle (Crawl.init (NewCrawler ()) "A" 2)).out :=
  ⟨by decide, ⟨["C"], by decide, by decide, by decide⟩,
    crawl_complete cycleFetch "A" 2 schedCycle "C" (by decide)
      ⟨["C"], by decide, by decide, by decide⟩⟩

theorem spawnWeight_ge (L k : Nat) : 4 ≤ spawnWeight L k := by
  cases k with
  | zero => simp [spawnWeight]
  | succ k => simp [spawnWeight]

theorem spawnWeight_mono (L : Nat) {j k : Nat} (h : j ≤ k) :
    spawnWeight L j ≤ spawnWeight L k := by
  induction k with
  | zero =>
    have : j = 0 := by omega
    subst this
    exact le_rfl
  | succ k ih =>
    rcases Nat.lt_or_ge j (k + 1) with hlt | hge
    · have h1 := ih (by omega)
      have h2 : spawnWeight L k ≤ (L + 1) * spawnWeight L k := Nat.le_mul_of_pos_left _ (by omega)
      simp only [spawnWeight]
      omega
    · have : j = k + 1 := by omega
      subst this
      exact le_rfl

theorem sendWeight_mono (L : Nat) {j k : Nat} (h : j ≤ k) :
    sendWeight L j ≤ sendWeight L k := by
  unfold sendWeight
  have := Nat.mul_le_mul_left (L + 1) (spawnWeight_mono L h)
  omega

theorem sendWeight_pos (L k : Nat) : 1 ≤ sendWeight L k := by
  unfold sendWeight
  omega

theorem spawnWeight_succ (L k : Nat) : spawnWeight L (k + 1) = sendWeight L k + 3 := by
  simp [spawnWeight, sendWeight]

theorem filter_cons_eq_erase (S : Finset String) (c : List String) (u : String) :
    S.filter (fun x => x ∉ u :: c) = (S.filter (fun x => x ∉ c)).erase u := by
  ext x
  simp only [Finset.mem_filter, List.mem_cons, not_or, Finset.mem_erase]
  tauto

theorem level_mono (S : Finset String) {c c' : List String} (u : String)
    (h : ∀ x ∈ c, x ∈ c') : level S c' u ≤ level S c u := by
  unfold level
  apply Finset.card_le_card
  apply Finset.erase_subset_erase
  intro x hx
  simp only [Finset.mem_filter] at hx ⊢
  exact ⟨hx.1, fun hc => hx.2 (h x hc)⟩

theorem level_of_open (S : Finset String) (c : List String) (u : String)
    (hS : u ∈ S) (hc : u ∉ c) :
    level S c u + 1 = (S.filter (fun x => x ∉ c)).card := by
  unfold level
  have hm : u ∈ S.filter (fun x => x ∉ c) := by
    simp [hS, hc]
  have hpos : 0 < (S.filter (fun x => x ∉ c)).card := Finset.card_pos.mpr ⟨u, hm⟩
  rw [Finset.card_erase_of_mem hm]
  omega

theorem taskWeight_mono (S : Finset String) (L : Nat) {c c' : List String}
    (h : ∀ x ∈ c, x ∈ c') (t : Task) : taskWeight S L c' t ≤ taskWeight S L c t := by
  cases t with
  | start u d =>
    simp only [taskWeight]
    by_cases h1 : u ∈ S ∧ u ∉ c'
    · have h2 : u ∈ S ∧ u ∉ c := ⟨h1.1, fun hc => h1.2 (h u hc)⟩
      rw [if_pos h1, if_pos h2]
      have := sendWeight_mono L (level_mono S u h)
      omega
    · rw [if_neg h1]
      by_cases h2 : u ∈ S ∧ u ∉ c
      · rw [if_pos h2]
        have := sendWeight_pos L (level S c u)
        omega
      · rw [if_neg h2]
  | fetching u =>
    simp only [taskWeight]
    by_cases h1 : u ∈ S
    · rw [if_pos h1, if_pos h1]
      have := sendWeight_mono L (level_mono S u h)
      omega
    · rw [if_neg h1, if_neg h1]
  | sending data =>
    simp only [taskWeight]
    by_cases h1 : data.err = none
    · rw [if_pos h1, if_pos h1]
      exact sendWeight_mono L (level_mono S data.url h)
    · rw [if_neg h1, if_neg h1]
  | dropped => simp [taskWeight]
  | finished => simp [taskWeight]

theorem sum_map_set (w : Task → Nat) :
    ∀ (l : List Task) (i : Nat) (t0 t' : Task), l[i]? = some t0 →
      ((l.set i t').map w).sum + w t0 = (l.map w).sum + w t' := by
  intro l
  induction l with
  | nil => intro i t0 t' h; simp at h
  | cons x xs ih =>
    intro i t0 t' h
    cases i with
    | zero =>
      simp only [List.getElem?_cons_zero, Option.some.injEq] at h
      subst h
      simp only [List.set_cons_zero, List.map_cons, List.sum_cons]
      omega
    | succ j =>
      simp only [List.getElem?_cons_succ] at h
      have := ih j t0 t' h
      simp only [List.set_cons_succ, List.map_cons, List.sum_cons]
      omega

theorem taskWeight_start_ge (S : Finset String) (L : Nat) (c : List String) (u : String)
    (d : Int) : 3 ≤ taskWeight S L c (Task.start u d) := by
  simp only [taskWeight]
  have := sendWeight_pos L (level S c u)
  split <;> omega

/-- Every enabled step lowers the weight. -/
theorem weight_step {g : String → FetchResult} {S : Finset String} {depth : Int}
    {s s' : State Unit} {a : Action}
    (hS : ∀ u, (g u).err = none → u ∈ S) (he : ∀ u, (g u).err ≠ none → (g u).urls = [])
    (hok : sendOK g s) (h : step (detFetcher g) depth s a = some s') :
    weight S (linkBound g S) s' < weight S (linkBound g S) s := by
  rcases step_cases h with ⟨i, u, d, -, hp, -, rfl⟩ | ⟨i, u, d, -, hp, -, hc, rfl⟩ |
    ⟨i, u, d, -, hp, -, hc, rfl⟩ | ⟨i, u, -, hp, rfl⟩ | ⟨i, dt, -, hp, hpe, -, rfl⟩ |
    ⟨u, rest, -, hpe, rfl⟩ | ⟨i, j, dt, u, d, -, hp, -, -, -, rfl⟩
  · have h1 := sum_map_set (taskWeight S (linkBound g S) s.crawledUrls) s.pool i _
      Task.dropped hp
    have h2 := taskWeight_start_ge S (linkBound g S) s.crawledUrls u d
    have h3 : taskWeight S (linkBound g S) s.crawledUrls Task.dropped = 0 := rfl
    simp only [weight]
    omega
  · have h1 := sum_map_set (taskWeight S (linkBound g S) s.crawledUrls) s.pool i _
      (Task.sending (skipData u)) hp
    have h2 : taskWeight S (linkBound g S) s.crawledUrls (Task.start u d) = 3 := by
      simp [taskWeight, hc]
    have h3 : taskWeight S (linkBound g S) s.crawledUrls (Task.sending (skipData u)) = 1 := by
      simp [taskWeight, skipData]
    simp only [weight]
    omega
  · have h1 := sum_map_set (taskWeight S (linkBound g S) s.crawledUrls) s.pool i _
      (Task.fetching u) hp
    have h2 : taskWeight S (linkBound g S) s.crawledUrls (Task.fetching u) <
        taskWeight S (linkBound g S) s.crawledUrls (Task.start u d) := by
      by_cases hu : u ∈ S
      · simp [taskWeight, hu, hc]
      · simp [taskWeight, hu]
    simp only [weight]
    omega
  · have h1 := sum_map_set (taskWeight S (linkBound g S) s.crawledUrls) s.pool i _
      (Task.sending (fetchData u (g u))) hp
    have h2 : taskWeight S (linkBound g S) s.crawledUrls (Task.sending (fetchData u (g u))) <
        taskWeight S (linkBound g S) s.crawledUrls (Task.fetching u) := by
      by_cases hu : u ∈ S
      · by_cases hgu : (g u).err = none
        · simp [taskWeight, hu, fetchData, hgu]
        · have := sendWeight_pos (linkBound g S) (level S s.crawledUrls u)
          simp [taskWeight, hu, fetchData, hgu]
          omega
      · have hgu : (g u).err ≠ none := fun hn => hu (hS u hn)
        simp [taskWeight, hu, fetchData, hgu]
    show (List.map (taskWeight S (linkBound g S) s.crawledUrls)
        (s.pool.set i (Task.sending (fetchData u (g u))))).sum +
      s.pending.length * spawnWeight (linkBound g S)
        (S.filter (fun x => x ∉ s.crawledUrls)).card < _
    simp only [weight]
    omega
  · have hmem : Task.sending dt ∈ s.pool := List.getElem?_mem hp
    have h1 := sum_map_set (taskWeight S (linkBound g S) s.crawledUrls) s.pool i _
      Task.finished hp
    have h3 : taskWeight S (linkBound g S) s.crawledUrls Task.finished = 0 := rfl
    have hmono := List.sum_le_sum (l := s.pool.set i Task.finished)
      (f := taskWeight S (linkBound g S) (mark s.crawledUrls dt))
      (g := taskWeight S (linkBound g S) s.crawledUrls)
      (fun t _ => taskWeight_mono S (linkBound g S) (fun x hx => mem_mark dt hx) t)
    have hold : weight S (linkBound g S) s =
        (List.map (taskWeight S (linkBound g S) s.crawledUrls) s.pool).sum := by
      simp [weight, hpe]
    rw [hold]
    show (List.map (taskWeight S (linkBound g S) (mark s.crawledUrls dt))
        (s.pool.set i Task.finished)).sum +
      dt.urls.length * spawnWeight (linkBound g S)
        (S.filter (fun x => x ∉ mark s.crawledUrls dt)).card < _
    cases hde : dt.err with
    | some e =>
      have hurls : dt.urls = [] := by
        rcases hok dt hmem with ⟨h4, -⟩ | ⟨h4, -⟩
        · rw [h4]; rfl
        · have hne : (g dt.url).err ≠ none := by
            have : dt.err = (g dt.url).err := by
              conv_lhs => rw [h4]
              rfl
            rw [← this, hde]
            simp
          have : dt.urls = (g dt.url).urls := by
            conv_lhs => rw [h4]
            rfl
          rw [this]
          exact he _ hne
      have h2 : taskWeight S (linkBound g S) s.crawledUrls (Task.sending dt) = 1 := by
        simp [taskWeight, hde]
      rw [hurls]
      simp only [List.length_nil, Nat.zero_mul, Nat.add_zero]
      omega
    | none =>
      have hform : dt = fetchData dt.url (g dt.url) := by
        rcases hok dt hmem with ⟨h4, -⟩ | ⟨h4, -⟩
        · rw [h4] at hde
          simp [skipData] at hde
        · exact h4
      have hsucc : (g dt.url).err = none := by
        have : dt.err = (g dt.url).err := by
          conv_lhs => rw [hform]
          rfl
        rw [← this]; exact hde
      have huS : dt.url ∈ S := hS _ hsucc
      have hlen : dt.urls.length ≤ linkBound g S := by
        have : dt.urls = (g dt.url).urls := by
          conv_lhs => rw [hform]
          rfl
        rw [this]
        exact Finset.le_sup (f := fun u => (g u).urls.length) huS
      have hmk : mark s.crawledUrls dt = dt.url :: s.crawledUrls := by
        unfold mark; rw [hde]
      have hcard : (S.filter (fun x => x ∉ mark s.crawledUrls dt)).card =
          level S s.crawledUrls dt.url := by
        rw [hmk, filter_cons_eq_erase]
        rfl
      have h2 : taskWeight S (linkBound g S) s.crawledUrls (Task.sending dt) =
          sendWeight (linkBound g S) (level S s.crawledUrls dt.url) := by
        simp [taskWeight, hde]
      rw [hcard]
      have h5 := Nat.mul_le_mul_right
        (spawnWeight (linkBound g S) (level S s.crawledUrls dt.url)) hlen
      have h6 : sendWeight (linkBound g S) (level S s.crawledUrls dt.url) =
          linkBound g S * spawnWeight (linkBound g S) (level S s.crawledUrls dt.url) +
            spawnWeight (linkBound g S) (level S s.crawledUrls dt.url) + 1 := by
        unfold sendWeight
        ring
      omega
  · have hlt : taskWeight S (linkBound g S) s.crawledUrls (Task.start u (depth - 1)) <
        spawnWeight (linkBound g S) (S.filter (fun x => x ∉ s.crawledUrls)).card := by
      by_cases hu : u ∈ S ∧ u ∉ s.crawledUrls
      · have hk := level_of_open S s.crawledUrls u hu.1 hu.2
        rw [← hk, spawnWeight_succ]
        simp [taskWeight, hu]
      · have := spawnWeight_ge (linkBound g S) (S.filter (fun x => x ∉ s.crawledUrls)).card
        simp only [taskWeight, if_neg hu]
        omega
    simp only [weight, hpe, List.map_append, List.sum_append, List.map_cons, List.map_nil,
      List.sum_cons, List.sum_nil, List.length_cons, Nat.add_mul, Nat.one_mul]
    omega
  · have h1 := sum_map_set (taskWeight S (linkBound g S) s.crawledUrls) s.pool i _
      Task.finished hp
    have h2 : 1 ≤ taskWeight S (linkBound g S) s.crawledUrls (Task.sending dt) := by
      have := sendWeight_pos (linkBound g S) (level S s.crawledUrls dt.url)
      simp only [taskWeight]
      split <;> omega
    have h3 : taskWeight S (linkBound g S) s.crawledUrls Task.finished = 0 := rfl
    simp only [weight]
    omega

theorem stepT_of_some {σ : Type} {f : Fetcher σ} {depth : Int} {s s' : State σ} {a : Action}
    (h : step f depth s a = some s') : stepT f depth s a = s' := by
  simp [stepT, h]

theorem stepT_of_none {σ : Type} {f : Fetcher σ} {depth : Int} {s : State σ} {a : Action}
    (h : step f depth s a = none) : stepT f depth s a = s := by
  simp [stepT, h]

theorem exec_append {σ : Type} (f : Fetcher σ) (depth : Int) :
    ∀ (as bs : List Action) (s : State σ),
      exec f depth (as ++ bs) s = exec f depth bs (exec f depth as s) := by
  intro as
  induction as with
  | nil => intro bs s; rfl
  | cons a as ih => intro bs s; exact ih bs _

theorem allSend_step {σ : Type} {f : Fetcher σ} {depth : Int} {s s' : State σ} {a : Action}
    (hd : 2 ≤ depth) (hI : allSend s) (h : step f depth s a = some s') : allSend s' := by
  intro t ht
  rcases step_cases h with ⟨i, u, d, -, hp, hd0, rfl⟩ | ⟨i, u, d, -, hp, -, -, rfl⟩ |
    ⟨i, u, d, -, hp, -, -, rfl⟩ | ⟨i, u, -, hp, rfl⟩ | ⟨i, dt, -, hp, -, -, rfl⟩ |
    ⟨u, rest, -, -, rfl⟩ | ⟨i, j, dt, u, d, -, hp, -, -, -, rfl⟩
  · have := (hI _ (List.getElem?_mem hp)).2 u d rfl
    omega
  · rcases List.mem_or_eq_of_mem_set ht with h1 | h1
    · exact hI t h1
    · subst h1
      exact ⟨by simp, fun _ _ hq => by cases hq⟩
  · rcases List.mem_or_eq_of_mem_set ht with h1 | h1
    · exact hI t h1
    · subst h1
      exact ⟨by simp, fun _ _ hq => by cases hq⟩
  · rcases List.mem_or_eq_of_mem_set ht with h1 | h1
    · exact hI t h1
    · subst h1
      exact ⟨by simp, fun _ _ hq => by cases hq⟩
  · rcases List.mem_or_eq_of_mem_set ht with h1 | h1
    · exact hI t h1
    · subst h1
      exact ⟨by simp, fun _ _ hq => by cases hq⟩
  · rcases List.mem_append.mp ht with h1 | h1
    · exact hI t h1
    · simp only [List.mem_singleton] at h1
      subst h1
      refine ⟨by simp, fun u' d' hq => ?_⟩
      cases hq
      omega
  · rcases List.mem_or_eq_of_mem_set ht with h1 | h1
    · exact hI t h1
    · subst h1
      exact ⟨by simp, fun _ _ hq => by cases hq⟩

theorem pool_length_step {σ : Type} {f : Fetcher σ} {depth : Int} {s s' : State σ}
    {a : Action} (h : step f depth s a = some s') : s'.pool.length ≤ s.pool.length + 1 := by
  rcases step_cases h with ⟨i, u, d, -, hp, hd0, rfl⟩ | ⟨i, u, d, -, hp, -, -, rfl⟩ |
    ⟨i, u, d, -, hp, -, -, rfl⟩ | ⟨i, u, -, hp, rfl⟩ | ⟨i, dt, -, hp, -, -, rfl⟩ |
    ⟨u, rest, -, -, rfl⟩ | ⟨i, j, dt, u, d, -, hp, -, -, -, rfl⟩ <;> simp

theorem pool_length_exec {σ : Type} (f : Fetcher σ) (depth : Int) :
    ∀ (acts : List Action) (s : State σ),
      (exec f depth acts s).pool.length ≤ s.pool.length + taken f depth acts s := by
  intro acts
  induction acts with
  | nil => intro s; simp [exec, taken]
  | cons a as ih =>
    intro s
    cases hq : step f depth s a with
    | none =>
      have := ih s
      simp only [exec, taken, hq, stepT_of_none hq, Option.isSome_none]
      simpa using this
    | some s' =>
      have h1 := ih s'
      have h2 := pool_length_step hq
      simp only [exec, taken, hq, stepT_of_some hq, Option.isSome_some, if_true]
      omega

theorem taken_le_weight {g : String → FetchResult} {S : Finset String} (depth : Int)
    (hS : ∀ u, (g u).err = none → u ∈ S) (he : ∀ u, (g u).err ≠ none → (g u).urls = []) :
    ∀ (acts : List Action) (s : State Unit), sendOK g s →
      taken (detFetcher g) depth acts s +
        weight S (linkBound g S) (exec (detFetcher g) depth acts s) ≤
          weight S (linkBound g S) s := by
  intro acts
  induction acts with
  | nil => intro s _; simp [exec, taken]
  | cons a as ih =>
    intro s hok
    cases hq : step (detFetcher g) depth s a with
    | none =>
      have := ih s hok
      simp only [exec, taken, hq, stepT_of_none hq, Option.isSome_none]
      simpa using this
    | some s' =>
      have h1 := ih s' (sendOK_step hok hq)
      have h2 := weight_step (S := S) hS he hok hq
      simp only [exec, taken, hq, stepT_of_some hq, Option.isSome_some, if_true]
      omega

/-- When the program is running, every goroutine is bound to send and no
action other than a `fault` is enabled, `Crawl` has returned. -/
theorem returned_of_stuck {σ : Type} {f : Fetcher σ} {depth : Int} {s : State σ}
    (hal : s.aborted = false)
    (hcnt : s.runningCount = (unprocessed s.pool : Int)) (hall : allSend s)
    (hstuck : ∀ a, a.isFault = false → step f depth s a = none) :
    returned s ∧ s.runningCount = 0 := by
  have hpend : s.pending = [] := by
    cases hp : s.pending with
    | nil => rfl
    | cons u rest =>
      have := hstuck Action.spawn rfl
      rw [step_eq_move f depth _ hal] at this
      simp [move, hp] at this
  have hfin : ∀ t ∈ s.pool, t = Task.finished := by
    intro t ht
    obtain ⟨i, hi⟩ := List.mem_iff_getElem?.mp ht
    cases t with
    | start u d =>
      have hd := (hall _ ht).2 u d rfl
      have := hstuck (Action.task i) rfl
      rw [step_eq_move f depth _ hal, move_task_eq] at this
      have hd' : ¬ d ≤ 0 := by omega
      by_cases hc : u ∈ s.crawledUrls
      · simp [hi, hd', hc] at this
      · simp [hi, hd', hc] at this
    | fetching u =>
      have := hstuck (Action.task i) rfl
      rw [step_eq_move f depth _ hal, move_task_eq] at this
      simp [hi] at this
    | sending dt =>
      have hpos : 0 < unprocessed s.pool := by
        unfold unprocessed
        rw [List.countP_pos_iff]
        exact ⟨_, ht, by simp⟩
      have hrc : 0 < s.runningCount := by omega
      have := hstuck (Action.recv i) rfl
      rw [step_eq_move f depth _ hal] at this
      simp [move, hpend, hrc, hi] at this
    | dropped => exact absurd rfl (hall _ ht).1
    | finished => rfl
  have hz : unprocessed s.pool = 0 := by
    unfold unprocessed
    rw [List.countP_eq_zero]
    intro t ht
    simp [hfin t ht]
  have hrc : s.runningCount = 0 := by omega
  exact ⟨⟨hal, hpend, by omega⟩, hrc⟩

/-- From a running state in which every goroutine is bound to send, some
continuation of the scheduling makes `Crawl` return. -/
theorem exists_returning {g : String → FetchResult} {S : Finset String} {depth : Int}
    (hd : 2 ≤ depth) (hS : ∀ u, (g u).err = none → u ∈ S)
    (he : ∀ u, (g u).err ≠ none → (g u).urls = []) :
    ∀ (n : Nat) (s : State Unit), weight S (linkBound g S) s < n → s.aborted = false →
      s.runningCount = (unprocessed s.pool : Int) → sendOK g s → allSend s →
      ∃ more, returned (exec (detFetcher g) depth more s) ∧
        (exec (detFetcher g) depth more s).runningCount = 0 := by
  intro n
  induction n with
  | zero => intro s hw; omega
  | succ n ih =>
    intro s hw hal hcnt hok hall
    by_cases hstuck : ∀ a, a.isFault = false → step (detFetcher g) depth s a = none
    · exact ⟨[], returned_of_stuck hal hcnt hall hstuck⟩
    · push_neg at hstuck
      obtain ⟨a, hnf, ha⟩ := hstuck
      obtain ⟨s', hs'⟩ := Option.ne_none_iff_exists'.mp ha
      have hlt := weight_step (S := S) hS he hok hs'
      obtain ⟨more, hm⟩ := ih s' (by omega) (step_stays_alive hs' hnf) (count_step hcnt hs')
        (sendOK_step hok hs') (allSend_step hd hall hs')
      refine ⟨a :: more, ?_⟩
      simpa only [exec, stepT_of_some hs'] using hm

theorem allSend_init {σ : Type} (cr : Crawler σ) (url : String) (depth : Int)
    (hd : 2 ≤ depth) : allSend (Crawl.init cr url depth) := by
  intro t ht
  simp only [Crawl.init, List.mem_singleton] at ht
  subst ht
  refine ⟨by simp, fun u d hq => ?_⟩
  cases hq
  omega

theorem cycleFetch_succeeds_on (u : String) (h : (cycleFetch u).err = none) :
    u ∈ ({"A", "B", "C"} : Finset String) := by
  by_cases hA : u = "A"
  · simp [hA]
  · by_cases hB : u = "B"
    · simp [hB]
    · by_cases hC : u = "C"
      · simp [hC]
      · have hA' : (u == "A") = false := beq_eq_false_iff_ne.mpr hA
        have hB' : (u == "B") = false := beq_eq_false_iff_ne.mpr hB
        have hC' : (u == "C") = false := beq_eq_false_iff_ne.mpr hC
        simp [cycleFetch, fakeFetch, List.lookup, hA', hB', hC'] at h

theorem cycleFetch_error_no_links (u : String) (h : (cycleFetch u).err ≠ none) :
    (cycleFetch u).urls = [] := by
  by_cases hA : u = "A"
  · subst hA; exact absurd rfl h
  · by_cases hB : u = "B"
    · subst hB; exact absurd rfl h
    · by_cases hC : u = "C"
      · subst hC; exact absurd rfl h
      · have hA' : (u == "A") = false := beq_eq_false_iff_ne.mpr hA
        have hB' : (u == "B") = false := beq_eq_false_iff_ne.mpr hB
        have hC' : (u == "C") = false := beq_eq_false_iff_ne.mpr hC
        simp [cycleFetch, fakeFetch, List.lookup, hA', hB', hC']

/-- What holds of termination: for a depth of at least 2, a seed, and pages
`g` answering by url only that succeed only on the finite set `S` and return no
links with an error, there is a bound `N` such that under every scheduling of
`Crawl(seed, depth)` on a new `Crawler` at most `N` steps are taken and at most
`N + 1` goroutines are created; a state in which no action is enabled is one
in which the runtime has ended the program or `Crawl` has returned with
`runningCount = 0`; and every scheduling after which the program is still
running can be continued until `Crawl` returns. -/
theorem crawl_bounded (g : String → FetchResult) (S : Finset String) (seed : String)
    (depth : Int) (hd : 2 ≤ depth) (hS : ∀ u, (g u).err = none → u ∈ S)
    (he : ∀ u, (g u).err ≠ none → (g u).urls = []) :
    ∃ N : Nat, ∀ acts : List Action,
      taken (detFetcher g) depth acts (Crawl.init (NewCrawler ()) seed depth) ≤ N ∧
      (exec (detFetcher g) depth acts (Crawl.init (NewCrawler ()) seed depth)).pool.length
        ≤ N + 1 ∧
      ((∀ a, step (detFetcher g) depth
          (exec (detFetcher g) depth acts (Crawl.init (NewCrawler ()) seed depth)) a = none) →
        (exec (detFetcher g) depth acts (Crawl.init (NewCrawler ()) seed depth)).aborted = true ∨
        (returned (exec (detFetcher g) depth acts (Crawl.init (NewCrawler ()) seed depth)) ∧
          (exec (detFetcher g) depth acts
            (Crawl.init (NewCrawler ()) seed depth)).runningCount = 0)) ∧
      ((exec (detFetcher g) depth acts (Crawl.init (NewCrawler ()) seed depth)).aborted = false →
        ∃ more : List Action,
          returned (exec (detFetcher g) depth (acts ++ more)
            (Crawl.init (NewCrawler ()) seed depth)) ∧
          (exec (detFetcher g) depth (acts ++ more)
            (Crawl.init (NewCrawler ()) seed depth)).runningCount = 0) := by
  refine ⟨weight S (linkBound g S) (Crawl.init (NewCrawler ()) seed depth), fun acts => ?_⟩
  have hinv := exec_induct (detFetcher g) depth
    (fun s => s.runningCount = (unprocessed s.pool : Int) ∧ sendOK g s ∧ allSend s)
    (fun s a s' hs hq =>
      ⟨count_step hs.1 hq, sendOK_step hs.2.1 hq, allSend_step hd hs.2.2 hq⟩)
    acts (Crawl.init (NewCrawler ()) seed depth)
    ⟨count_init _ _ _, sendOK_init g _ _ _, allSend_init _ _ _ hd⟩
  obtain ⟨hcnt, hok, hall⟩ := hinv
  have htaken := taken_le_weight (S := S) depth hS he acts
    (Crawl.init (NewCrawler ()) seed depth) (sendOK_init g _ _ _)
  have hlen := pool_length_exec (detFetcher g) depth acts
    (Crawl.init (NewCrawler ()) seed depth)
  have hlen0 : (Crawl.init (NewCrawler ()) seed depth : State Unit).pool.length = 1 := rfl
  refine ⟨by omega, by omega, fun hstuck => ?_, fun hal => ?_⟩
  · cases hal : (exec (detFetcher g) depth acts
        (Crawl.init (NewCrawler ()) seed depth)).aborted with
    | true => exact Or.inl rfl
    | false => exact Or.inr (returned_of_stuck hal hcnt hall (fun a _ => hstuck a))
  · obtain ⟨more, hm⟩ := exists_returning (S := S) hd hS he _ _ (Nat.lt_succ_self _)
      hal hcnt hok hall
    exact ⟨more, by rw [exec_append]; exact hm⟩

/-- C10: the cycle pages with seed A and depth 2 meet every condition of the
claim, and there is a scheduling of `Crawl(A, 2)` on a new `Crawler` that the
runtime ends: `Crawl` receives the outcome of B and writes the map at line 47
while the goroutine for C reads it at line 61.  After it no scheduling makes
`Crawl` return. -/
theorem crawl_can_be_ended_by_runtime (acts : List Action) :
    (exec (detFetcher cycleFetch) 2 schedFault (Crawl.init (NewCrawler ()) "A" 2)).aborted
        = true ∧
      (exec (detFetcher cycleFetch) 2 schedFault (Crawl.init (NewCrawler ()) "A" 2)).fetched
        = ["A", "B"] ∧
      ¬ returned (exec (detFetcher cycleFetch) 2 (schedFault ++ acts)
        (Crawl.init (NewCrawler ()) "A" 2)) := by
  have h1 : (exec (detFetcher cycleFetch) 2 schedFault
      (Crawl.init (NewCrawler ()) "A" 2)).aborted = true := by decide
  refine ⟨h1, by decide, ?_⟩
  rw [exec_append, exec_of_aborted _ _ _ _ h1]
  rintro ⟨h2, -⟩
  rw [h1] at h2
  cases h2

theorem step_mem_candidates {σ : Type} {f : Fetcher σ} {depth : Int} {s s' : State σ}
    {a : Action} (h : step f depth s a = some s') : a ∈ candidates s := by
  have hlt : ∀ {i : Nat} {t : Task}, s.pool[i]? = some t → i < s.pool.length := by
    intro i t hp
    rcases Nat.lt_or_ge i s.pool.length with hlt | hge
    · exact hlt
    · rw [List.getElem?_eq_none hge] at hp
      cases hp
  unfold candidates
  rcases step_cases h with ⟨i, u, d, rfl, hp, -, -⟩ | ⟨i, u, d, rfl, hp, -, -, -⟩ |
    ⟨i, u, d, rfl, hp, -, -, -⟩ | ⟨i, u, rfl, hp, -⟩ | ⟨i, dt, rfl, hp, -, -, -⟩ |
    ⟨u, rest, rfl, -, -⟩ | ⟨i, j, dt, u, d, rfl, hp, hq, -, -, -⟩
  · simp [hlt hp]
  · simp [hlt hp]
  · simp [hlt hp]
  · simp [hlt hp]
  · simp [hlt hp]
  · simp
  · simp [hlt hp, hlt hq]

/-- A successful search covers every scheduling. -/
theorem explore_sound {σ : Type} (f : Fetcher σ) (depth : Int) (P : State σ → Bool) :
    ∀ (n : Nat) (s : State σ), explore f depth P n s = true →
      ∀ acts : List Action, P (exec f depth acts s) = true := by
  intro n
  induction n with
  | zero => intro s h; simp [explore] at h
  | succ n ih =>
    intro s h acts
    simp only [explore, Bool.and_eq_true, List.all_eq_true] at h
    induction acts with
    | nil => exact h.1
    | cons a as ihas =>
      cases hq : step f depth s a with
      | none =>
        simp only [exec, stepT_of_none hq]
        exact ihas
      | some s' =>
        simp only [exec, stepT_of_some hq]
        have := h.2 a (step_mem_candidates hq)
        simp only [hq] at this
        exact ih s' this as

set_option maxRecDepth 100000 in
theorem cycle_explored :
    explore (detFetcher cycleFetch) 2 cycleOK 15 (Crawl.init (NewCrawler ()) "A" 2) = true := by
  decide

/-- C8 as stated fails: in the cycle scenario `Crawl` returns after four
received outcomes, not three; the fourth is the skip outcome of the goroutine
started for the link from B back to A. -/
theorem cycle_crawl_processes_four :
    returned (exec (detFetcher cycleFetch) 2 schedCycle (Crawl.init (NewCrawler ()) "A" 2)) ∧
      (exec (detFetcher cycleFetch) 2 schedCycle (Crawl.init (NewCrawler ()) "A" 2)).out
        = [Line.found "A" "a", Line.found "B" "b", Line.error "skip crawled: A",
           Line.found "C" "c"] := by
  decide

/-- C8 amended: in the cycle scenario (seed A, depth 2), under every
scheduling no url is passed to `Fetch` twice, and whenever `Crawl` has
returned, `Fetch` has been called exactly once for each of A, B and C and
exactly four outcomes have been received (one line printed for each). -/
theorem cycle_scenario (acts : List Action) :
    ((exec (detFetcher cycleFetch) 2 acts (Crawl.init (NewCrawler ()) "A" 2)).fetched.count "A"
        ≤ 1 ∧
      (exec (detFetcher cycleFetch) 2 acts (Crawl.init (NewCrawler ()) "A" 2)).fetched.count "B"
        ≤ 1 ∧
      (exec (detFetcher cycleFetch) 2 acts (Crawl.init (NewCrawler ()) "A" 2)).fetched.count "C"
        ≤ 1) ∧
    (returned (exec (detFetcher cycleFetch) 2 acts (Crawl.init (NewCrawler ()) "A" 2)) →
      (exec (detFetcher cycleFetch) 2 acts (Crawl.init (NewCrawler ()) "A" 2)).fetched.count "A"
        = 1 ∧
      (exec (detFetcher cycleFetch) 2 acts (Crawl.init (NewCrawler ()) "A" 2)).fetched.count "B"
        = 1 ∧
      (exec (detFetcher cycleFetch) 2 acts (Crawl.init (NewCrawler ()) "A" 2)).fetched.count "C"
        = 1 ∧
      (exec (detFetcher cycleFetch) 2 acts (Crawl.init (NewCrawler ()) "A" 2)).out.length = 4) := by
  have h := explore_sound (detFetcher cycleFetch) 2 cycleOK 15 _ cycle_explored acts
  simp only [cycleOK, decide_eq_true_eq] at h
  obtain ⟨h1, h2, h3, h4⟩ := h
  exact ⟨⟨h1, h2, h3⟩, h4⟩

theorem cycle_scenario_witness :
    returned (exec (detFetcher cycleFetch) 2 schedCycle (Crawl.init (NewCrawler ()) "A" 2)) ∧
      (exec (detFetcher cycleFetch) 2 schedCycle (Crawl.init (NewCrawler ()) "A" 2)).out.length
        = 4 :=
  ⟨by decide, ((cycle_scenario schedCycle).2 (by decide)).2.2.2⟩

end GoCrawl
